import Mathlib

/-!
Verification of the natural-language specification of
`great_expectations/cli/upgrade_helpers/upgrade_helper_v11.py`
(class `UpgradeHelperV11`) against a shallow embedding of its code.

The store backends (filesystem, S3, GCS, database, in-memory) are external
collaborators: they are modelled as records of pure operations
(`StoreBackend`) supplied as input, tagged by a closed `BackendKind`.
Python exceptions are modelled as `Except String` / `Option String` error
channels; an engine function returns its partially-mutated state together
with `some err` when an exception escapes it (matching the fact that
Python's in-place mutations survive a later exception).  Serialized JSON
values are modelled as `Json` trees (the `json.loads` / `json.dumps`
round-trip of the external library is taken as the identity on trees).
The `dateutil.parser.parse(...).isoformat()` composite is modelled by a
session-supplied function `parse : String → ParseOutcome` whose
`parserError` constructor corresponds to `dateutil.parser.ParserError`
and whose `otherError` constructor corresponds to any other exception
raised by the parser.  Backend-provenance timestamp fetches (file mtime,
S3 last-modified, GCS created-time) are modelled by a per-backend
`provenance` operation.  Observable backend operations and run-time
resolutions are also recorded in an event trace (`Ev`) so that ordering
and "queried at most once" properties can be stated.
-/

/-- A store key: an ordered sequence of path-like segments (a Python tuple
of strings). -/
abbrev Key := List String

/-- Error values carried by the modelled exception channel. -/
abbrev Err := String

/-- The closed set of store-backend implementation kinds dispatched on by
the helper (`type(store_backend)` / `isinstance` checks in the source). -/
inductive BackendKind where
  | tupleFilesystem
  | tupleS3
  | tupleGCS
  | database
  | inMemory
  | other
deriving DecidableEq, Repr

/-- `type(store_backend).__name__` for each modelled kind. -/
def backendClassName : BackendKind → String
  | .tupleFilesystem => "TupleFilesystemStoreBackend"
  | .tupleS3 => "TupleS3StoreBackend"
  | .tupleGCS => "TupleGCSStoreBackend"
  | .database => "DatabaseStoreBackend"
  | .inMemory => "InMemoryStoreBackend"
  | .other => "OtherStoreBackend"

/-- Membership of the backend kind in
`run_time_setters_by_backend_type.keys()` (the three migratable kinds). -/
def isMigratableKind : BackendKind → Bool
  | .tupleFilesystem => true
  | .tupleS3 => true
  | .tupleGCS => true
  | _ => false

/-- Structured JSON content, the deserialized form of a stored validation
result (`json.loads` of the stored bytes). -/
inductive Json where
  | null
  | bool (b : Bool)
  | num (n : Int)
  | str (s : String)
  | arr (elems : List Json)
  | obj (fields : List (String × Json))

/-- First-match association lookup: Python `d[k]` / `k in d` on a dict
whose insertion order is the list order. -/
def dictGet {α : Type} (k : String) : List (String × α) → Option α
  | [] => none
  | (k', v) :: rest => if k' = k then some v else dictGet k rest

/-- Python dict assignment `d[k] = v`: replace the binding in place when
the key is present, append otherwise. -/
def dictSet {α : Type} (k : String) (v : α) : List (String × α) → List (String × α)
  | [] => [(k, v)]
  | (k', v') :: rest => if k' = k then (k, v) :: rest else (k', v') :: dictSet k v rest

/-- Update the value bound to `k` when present; `none` models the
`KeyError` raised when `k` is absent. -/
def dictModify {α : Type} (k : String) (f : α → α) : List (String × α) → Option (List (String × α))
  | [] => none
  | (k', v) :: rest =>
    if k' = k then some ((k', f v) :: rest)
    else match dictModify k f rest with
      | some rest' => some ((k', v) :: rest')
      | none => none

/-- A store backend as seen by the migration engine: the closed capability
`listKeys` / `get` / `set` / `removeKey` / `move` / `urlForKey` plus the
kind-specific provenance-timestamp accessor used by the run-time setters
(file mtime / S3 last-modified / GCS created-time, already converted to an
ISO string by the external libraries). -/
structure StoreBackend where
  kind : BackendKind
  list_keys : Except Err (List Key)
  get : Key → Except Err Json
  set : Key → Json → Except Err Unit
  remove_key : Key → Except Err Unit
  move : Key → Key → Except Err Unit
  get_url_for_key : Key → Except Err String
  provenance : Key → Except Err String

/-- Outcome of `dateutil.parser.parse(run_name).isoformat()`:
success with the ISO string, a `ParserError`, or any other exception. -/
inductive ParseOutcome where
  | ok (iso : String)
  | parserError
  | otherError (msg : Err)

/-- One record of `upgrade_log["upgraded_validations_stores"][name]` or
`upgrade_log["upgraded_docs_site_validations_stores"][name]`: the list of
`{"src": ..., "dest": ...}` pairs and the `"exceptions"` flag. -/
structure StoreOutcome where
  updated : List (String × String)
  exceptions : Bool
deriving DecidableEq, Repr

/-- One entry of the flat `upgrade_log["exceptions"]` list.  `is_store`
records whether the Python dict used the `"validation_store_name"` key
(store) or the `"site_name"` key (site). -/
structure ExcEntry where
  is_store : Bool
  name : String
  src : String
  dest : String
  exception_message : String
deriving DecidableEq, Repr

/-- The `upgrade_log` dict. -/
structure UpgradeLog where
  skipped_validations_database : List (String × String)
  skipped_validations_unsupported : List (String × String)
  skipped_docs_unsupported : List (String × String)
  skipped_metrics_database : List (String × String)
  skipped_metrics_unsupported : List (String × String)
  exceptions : List ExcEntry
  upgraded_validations_stores : List (String × StoreOutcome)
  upgraded_docs_site_validations_stores : List (String × StoreOutcome)
deriving DecidableEq, Repr

/-- The empty `upgrade_log` built in `__init__`. -/
def emptyUpgradeLog : UpgradeLog :=
  ⟨[], [], [], [], [], [], [], []⟩

/-- The helper's mutable state relevant to migration: the upgrade log and
the `validation_run_times` memoization cache. -/
structure HelperState where
  log : UpgradeLog
  validation_run_times : List (String × String)
deriving DecidableEq, Repr

/-- Observable events emitted while the engine runs: resolver invocations,
successful resolutions, backend provenance queries, reads of the cached
run time, and backend data operations. -/
inductive Ev where
  | resolveCall (run_name : String)
  | resolved (run_name : String) (run_time : String)
  | provenanceCall (run_name : String)
  | usedRunTime (run_name : String) (run_time : String)
  | getOp (k : Key)
  | setOp (k : Key) (v : Json)
  | removeOp (k : Key)
  | moveOp (src : Key) (dest : Key)

/-- The mutually-exclusive `store_name` / `site_name` argument pair
(exactly one is supplied, enforced by the source's asserts). -/
inductive Identity where
  | store (name : String)
  | site (name : String)
deriving DecidableEq, Repr

def Identity.name : Identity → String
  | .store n => n
  | .site n => n

def Identity.isStoreIdent : Identity → Bool
  | .store _ => true
  | .site _ => false

/-- Rendering of a key used in the best-effort placeholder message
(`f"Unable to generate URL for key: {key}"`). -/
def keyText (k : Key) : String := String.intercalate "/" k

/-- `store_backend.get_url_for_key(key) if key else "N/A"`, with the
per-URL best-effort `except` substituting a placeholder. -/
def urlForOptKey (be : StoreBackend) : Option Key → String
  | none => "N/A"
  | some k =>
    match be.get_url_for_key k with
    | .ok u => u
    | .error _ => "Unable to generate URL for key: " ++ keyText k

/-- The `f'{type(e).__name__}: "{str(e)}".  Traceback: ...'` message built
in each `except` block; the exception's type name and traceback are
collapsed into the carried error string. -/
def formatExceptionMessage (e : Err) : String :=
  "Exception: \"" ++ e ++ "\"."

/-- `_update_upgrade_log`.  Returns the (possibly partially) updated state
and `some err` when the method itself raises (`KeyError` when the
per-store outcome record was never initialized); note that in the
exception branch the append to the flat `exceptions` list happens before
the outcome-record lookup, so it survives such a failure. -/
def update_upgrade_log (be : StoreBackend) (ident : Identity)
    (source_key dest_key : Option Key) (exception_message : Option String)
    (st : HelperState) : HelperState × Option Err :=
  let src_url := urlForOptKey be source_key
  let dest_url := urlForOptKey be dest_key
  match exception_message with
  | none =>
    match ident with
    | .store n =>
      match dictModify n (fun o => { o with updated := o.updated ++ [(src_url, dest_url)] })
          st.log.upgraded_validations_stores with
      | some m => ({ st with log := { st.log with upgraded_validations_stores := m } }, none)
      | none => (st, some "KeyError: store outcome record missing")
    | .site n =>
      match dictModify n (fun o => { o with updated := o.updated ++ [(src_url, dest_url)] })
          st.log.upgraded_docs_site_validations_stores with
      | some m => ({ st with log := { st.log with upgraded_docs_site_validations_stores := m } }, none)
      | none => (st, some "KeyError: site outcome record missing")
  | some msg =>
    let entry : ExcEntry := ⟨ident.isStoreIdent, ident.name, src_url, dest_url, msg⟩
    let st1 := { st with log := { st.log with exceptions := st.log.exceptions ++ [entry] } }
    match ident with
    | .store n =>
      match dictModify n (fun o => { o with exceptions := true })
          st1.log.upgraded_validations_stores with
      | some m => ({ st1 with log := { st1.log with upgraded_validations_stores := m } }, none)
      | none => (st1, some "KeyError: store outcome record missing")
    | .site n =>
      match dictModify n (fun o => { o with exceptions := true })
          st1.log.upgraded_docs_site_validations_stores with
      | some m => ({ st1 with log := { st1.log with upgraded_docs_site_validations_stores := m } }, none)
      | none => (st1, some "KeyError: site outcome record missing")

/-- Python `source_key[-2]` on a tuple: `none` models the `IndexError`
raised when the tuple has fewer than two elements. -/
def secondToLast : List String → Option String
  | [] => none
  | [_] => none
  | [a, _] => some a
  | _ :: b :: c :: rest => secondToLast (b :: c :: rest)

/-- Python `lst.insert(-1, x)`: insert before the last element (appends
to a list of length ≤ 1 at position 0, as CPython does). -/
def pyInsertNeg1 (x : String) : List String → List String
  | [] => [x]
  | [a] => [x, a]
  | a :: b :: rest => a :: pyInsertNeg1 x (b :: rest)

/-- The shared body of `_get_tuple_filesystem_store_backend_run_time`,
`_get_tuple_s3_store_backend_run_time` and
`_get_tuple_gcs_store_backend_run_time`: try to parse the run name as a
date; on `ParserError` only, fall back to the backend's provenance
timestamp for this key; cache the result under the run name.  Any other
parser error, and any provenance failure, leaves the cache unchanged and
propagates.  Returns the new cache, the emitted events, and the escaping
error, if any. -/
def runTimeSetterCore (parse : String → ParseOutcome) (be : StoreBackend)
    (source_key : Key) (cache : List (String × String)) :
    List (String × String) × List Ev × Option Err :=
  match secondToLast source_key with
  | none => (cache, [], some "IndexError: tuple index out of range")
  | some run_name =>
    match parse run_name with
    | .ok iso => (dictSet run_name iso cache, [.resolved run_name iso], none)
    | .otherError m => (cache, [], some m)
    | .parserError =>
      match be.provenance source_key with
      | .ok t => (dictSet run_name t cache, [.provenanceCall run_name, .resolved run_name t], none)
      | .error e => (cache, [.provenanceCall run_name], some e)

/-- `self.run_time_setters_by_backend_type.get(type(store_backend))(...)`:
exact-type dispatch to one of the three setters; for a non-migratable kind
`.get` yields `None` and calling it raises `TypeError`. -/
def dispatchRunTimeSetter (parse : String → ParseOutcome) (be : StoreBackend)
    (source_key : Key) (cache : List (String × String)) :
    List (String × String) × List Ev × Option Err :=
  if isMigratableKind be.kind then runTimeSetterCore parse be source_key cache
  else (cache, [], some "TypeError: NoneType object is not callable")

/-- The loop-carried Python locals of the key loop in
`upgrade_store_backend`.  `none` models a still-unbound local (so that a
reference raises `NameError`); `dest_key = some none` models the local
bound to Python `None`. -/
structure LoopLocals where
  run_name : Option String
  dest_key : Option (Option Key)

/-- Result of the first `try` block of the key loop (lines 195–204):
extract the run name, resolve the run time when not cached, and compute
the destination key by inserting the cached run time before the final
segment.  `exc` is the exception caught by the first `except`, if any;
the returned locals reflect exactly the assignments executed before the
raise (stale values persist across iterations, as Python locals do). -/
structure Block1Result where
  locals : LoopLocals
  cache : List (String × String)
  evs : List Ev
  exc : Option Err

def tryComputeDestKey (parse : String → ParseOutcome) (be : StoreBackend)
    (source_key : Key) (locals : LoopLocals) (cache : List (String × String)) :
    Block1Result :=
  match secondToLast source_key with
  | none => ⟨locals, cache, [], some "IndexError: tuple index out of range"⟩
  | some run_name =>
    match dictGet run_name cache with
    | some t =>
      ⟨⟨some run_name, some (some (pyInsertNeg1 t source_key))⟩, cache,
        [.usedRunTime run_name t], none⟩
    | none =>
      match dispatchRunTimeSetter parse be source_key cache with
      | (cache', evs, some e) =>
        ⟨⟨some run_name, some none⟩, cache', .resolveCall run_name :: evs, some e⟩
      | (cache', evs, none) =>
        match dictGet run_name cache' with
        | some t =>
          ⟨⟨some run_name, some (some (pyInsertNeg1 t source_key))⟩, cache',
            (.resolveCall run_name :: evs) ++ [.usedRunTime run_name t], none⟩
        | none =>
          ⟨⟨some run_name, some none⟩, cache', .resolveCall run_name :: evs,
            some "KeyError: run time missing after setter"⟩

/-- `_update_validation_result_json`: build the new `run_id` dict from the
cached run time (a `KeyError` here precedes any backend operation), read
and deserialize the source value, overwrite `["meta"]["run_id"]` in
place, serialize and write under the destination key, then delete the
source key.  Returns the escaping error, if any, together with the
backend operations performed, in order. -/
def objGetItem (j : Json) (k : String) : Except Err Json :=
  match j with
  | .obj fields =>
    match dictGet k fields with
    | some v => .ok v
    | none => .error ("KeyError: " ++ k)
  | _ => .error "TypeError: object is not subscriptable"

def objSetItem (j : Json) (k : String) (v : Json) : Except Err Json :=
  match j with
  | .obj fields => .ok (.obj (dictSet k v fields))
  | _ => .error "TypeError: object does not support item assignment"

/-- `validation_json_dict["meta"]["run_id"] = new_run_id_dict` on the
deserialized tree. -/
def setMetaRunId (j : Json) (newRunId : Json) : Except Err Json := do
  let meta ← objGetItem j "meta"
  let meta2 ← objSetItem meta "run_id" newRunId
  objSetItem j "meta" meta2

def update_validation_result_json (be : StoreBackend) (source_key : Key)
    (dest_key : Option Key) (run_name : Option String)
    (cache : List (String × String)) : Option Err × List Ev :=
  match run_name with
  | none => (some "NameError: name run_name is not defined", [])
  | some rn =>
    match dictGet rn cache with
    | none => (some "KeyError: run_name not in validation_run_times", [])
    | some t =>
      let new_run_id : Json := .obj [("run_name", .str rn), ("run_time", .str t)]
      match be.get source_key with
      | .error e => (some e, [.getOp source_key])
      | .ok j =>
        match setMetaRunId j new_run_id with
        | .error e => (some e, [.getOp source_key])
        | .ok j2 =>
          match dest_key with
          | none => (some "TypeError: destination key is None", [.getOp source_key])
          | some d =>
            match be.set d j2 with
            | .error e => (some e, [.getOp source_key, .setOp d j2])
            | .ok _ =>
              match be.remove_key source_key with
              | .error e => (some e, [.getOp source_key, .setOp d j2, .removeOp source_key])
              | .ok _ => (none, [.getOp source_key, .setOp d j2, .removeOp source_key])

/-- Result of processing one listed key (or of a whole backend): the
state, the loop locals left behind, the emitted events, and the error
escaping `upgrade_store_backend`, if any. -/
structure BodyResult where
  st : HelperState
  locals : LoopLocals
  evs : List Ev
  err : Option Err

/-- The transfer operation of the second `try` block (lines 221–229):
content rewrite for a store, `store_backend.move` for a site (a `move`
whose destination is `None` failing inside the backend's key-to-path
conversion before any relocation happens). -/
def transferStep (be : StoreBackend) (ident : Identity) (source_key : Key)
    (dk : Option Key) (run_name : Option String)
    (cache : List (String × String)) : Option Err × List Ev :=
  match ident with
  | .store _ => update_validation_result_json be source_key dk run_name cache
  | .site _ =>
    match dk with
    | none => (some "TypeError: destination key is None", [])
    | some d =>
      match be.move source_key d with
      | .ok _ => (none, [.moveOp source_key d])
      | .error e => (some e, [.moveOp source_key d])

/-- The logging tail of the second `try` block: on transfer success log
the `{"src", "dest"}` pair — a failure of that logging call being caught
by the same `except` and logged as an exception entry in turn — and on
transfer failure log an exception entry for this key. -/
def logAfterTransfer (be : StoreBackend) (ident : Identity) (source_key : Key)
    (dk : Option Key) (terr : Option Err) (st : HelperState) : HelperState × Option Err :=
  match terr with
  | none =>
    match update_upgrade_log be ident (some source_key) dk none st with
    | (st1, none) => (st1, none)
    | (st1, some e) =>
      update_upgrade_log be ident (some source_key) dk (some (formatExceptionMessage e)) st1
  | some e => update_upgrade_log be ident (some source_key) dk (some (formatExceptionMessage e)) st

/-- The second `try` block of the key loop (lines 220–250): perform the
transfer, then log the outcome.  A reference to a still-unbound
`dest_key` raises `NameError` inside the `except` handler as well, and
thus escapes. -/
def runBlock2 (be : StoreBackend) (ident : Identity) (source_key : Key)
    (locals : LoopLocals) (st : HelperState) (evs0 : List Ev) : BodyResult :=
  match locals.dest_key with
  | none => ⟨st, locals, evs0, some "NameError: name dest_key is not defined"⟩
  | some dk =>
    let transfer := transferStep be ident source_key dk locals.run_name st.validation_run_times
    let res := logAfterTransfer be ident source_key dk transfer.1 st
    ⟨res.1, locals, evs0 ++ transfer.2, res.2⟩

/-- The first `except` handler of the key loop (lines 205–218): log the
caught failure for this key; referencing a still-unbound `dest_key` while
building the call's arguments raises `NameError`, which escapes without
logging anything. -/
def logBlock1Failure (be : StoreBackend) (ident : Identity) (source_key : Key)
    (locals1 : LoopLocals) (e : Err) (st : HelperState) : HelperState × Option Err :=
  match locals1.dest_key with
  | none => (st, some "NameError: name dest_key is not defined")
  | some dk => update_upgrade_log be ident (some source_key) dk (some (formatExceptionMessage e)) st

/-- The body of `for source_key in validation_source_keys` (lines
194–250): the first `try` block with its `except`, then the transfer
block.  Note the source has neither `continue` after the first handler
nor an early exit, so the transfer block runs even when the first block
failed. -/
def processSourceKey (parse : String → ParseOutcome) (be : StoreBackend)
    (ident : Identity) (source_key : Key) (locals : LoopLocals)
    (st : HelperState) : BodyResult :=
  let b1 := tryComputeDestKey parse be source_key locals st.validation_run_times
  let st1 := { st with validation_run_times := b1.cache }
  match b1.exc with
  | some e =>
    let r1 := logBlock1Failure be ident source_key b1.locals e st1
    match r1.2 with
    | some e2 => ⟨r1.1, b1.locals, b1.evs, some e2⟩
    | none => runBlock2 be ident source_key b1.locals r1.1 b1.evs
  | none => runBlock2 be ident source_key b1.locals st1 b1.evs

/-- The key loop: keys are processed strictly sequentially; an error
escaping one body aborts the remaining keys (and the backend). -/
def processKeys (parse : String → ParseOutcome) (be : StoreBackend)
    (ident : Identity) : List Key → LoopLocals → HelperState → BodyResult
  | [], locals, st => ⟨st, locals, [], none⟩
  | k :: ks, locals, st =>
    let r := processSourceKey parse be ident k locals st
    match r.err with
    | some e => ⟨r.st, r.locals, r.evs, some e⟩
    | none =>
      let rest := processKeys parse be ident ks r.locals r.st
      ⟨rest.st, rest.locals, r.evs ++ rest.evs, rest.err⟩

/-- `upgrade_store_backend`: list the keys; if listing raises, log one
whole-backend exception entry (both locations `"N/A"`) — and then, the
`for` loop referencing the never-assigned `validation_source_keys` raises
`UnboundLocalError`, which escapes. -/
def upgrade_store_backend (parse : String → ParseOutcome) (be : StoreBackend)
    (ident : Identity) (st : HelperState) : BodyResult :=
  match be.list_keys with
  | .error e =>
    match update_upgrade_log be ident none none (some (formatExceptionMessage e)) st with
    | (st1, some e2) => ⟨st1, ⟨none, none⟩, [], some e2⟩
    | (st1, none) =>
      ⟨st1, ⟨none, none⟩, [],
        some "UnboundLocalError: local variable validation_source_keys referenced before assignment"⟩
  | .ok ks => processKeys parse be ident ks ⟨none, none⟩ st

/-- A registered store as the checklist builder sees it: its class tag
(`ValidationsStore` / `MetricStore` / anything else) and its
`store_backend`. -/
inductive StoreType where
  | validations
  | metric
  | otherStore
deriving DecidableEq, Repr

structure RegisteredStore where
  ty : StoreType
  store_backend : StoreBackend

/-- The session context: the store registry (`data_context.stores`), the
configured documentation sites (`data_docs_sites`, `none` modelling a
falsy value — each site abstracted to the backend that the constructed
`HtmlSiteStore` exposes for validation-result pages), and the external
date parser. -/
structure Ctx where
  stores : List (String × RegisteredStore)
  data_docs_sites : Option (List (String × StoreBackend))
  parse : String → ParseOutcome

/-- The `upgrade_checklist` dict pair. -/
structure UpgradeChecklist where
  validations_store_backends : List (String × StoreBackend)
  docs_validations_store_backends : List (String × StoreBackend)

/-- `_process_validations_store_for_checklist`. -/
def process_validations_store_for_checklist (store_name : String) (sb : StoreBackend)
    (acc : UpgradeChecklist × UpgradeLog) : UpgradeChecklist × UpgradeLog :=
  if sb.kind = .database then
    (acc.1, { acc.2 with skipped_validations_database :=
        acc.2.skipped_validations_database ++ [(store_name, backendClassName sb.kind)] })
  else if isMigratableKind sb.kind then
    ({ acc.1 with validations_store_backends := dictSet store_name sb acc.1.validations_store_backends }, acc.2)
  else
    (acc.1, { acc.2 with skipped_validations_unsupported :=
        acc.2.skipped_validations_unsupported ++ [(store_name, backendClassName sb.kind)] })

/-- `_process_metrics_store_for_checklist`: note the in-memory kind is
silently skipped and no metric store is ever added to the checklist. -/
def process_metrics_store_for_checklist (store_name : String) (sb : StoreBackend)
    (acc : UpgradeChecklist × UpgradeLog) : UpgradeChecklist × UpgradeLog :=
  if sb.kind = .database then
    (acc.1, { acc.2 with skipped_metrics_database :=
        acc.2.skipped_metrics_database ++ [(store_name, backendClassName sb.kind)] })
  else if sb.kind = .inMemory then
    acc
  else
    (acc.1, { acc.2 with skipped_metrics_unsupported :=
        acc.2.skipped_metrics_unsupported ++ [(store_name, backendClassName sb.kind)] })

/-- `_process_docs_site_for_checklist` (after the external `HtmlSiteStore`
construction has exposed the site's validation-page backend). -/
def process_docs_site_for_checklist (site_name : String) (sb : StoreBackend)
    (acc : UpgradeChecklist × UpgradeLog) : UpgradeChecklist × UpgradeLog :=
  if isMigratableKind sb.kind then
    ({ acc.1 with docs_validations_store_backends := dictSet site_name sb acc.1.docs_validations_store_backends }, acc.2)
  else
    (acc.1, { acc.2 with skipped_docs_unsupported :=
        acc.2.skipped_docs_unsupported ++ [(site_name, backendClassName sb.kind)] })

/-- One step of the store-registry loop of `_generate_upgrade_checklist`:
stores that are neither validations stores nor metric stores are ignored
entirely. -/
def checklistStoreStep (acc : UpgradeChecklist × UpgradeLog)
    (entry : String × RegisteredStore) : UpgradeChecklist × UpgradeLog :=
  match entry.2.ty with
  | .validations => process_validations_store_for_checklist entry.1 entry.2.store_backend acc
  | .metric => process_metrics_store_for_checklist entry.1 entry.2.store_backend acc
  | .otherStore => acc

/-- `_generate_upgrade_checklist`. -/
def generate_upgrade_checklist (ctx : Ctx) : UpgradeChecklist × UpgradeLog :=
  let afterStores := ctx.stores.foldl checklistStoreStep (⟨[], []⟩, emptyUpgradeLog)
  match ctx.data_docs_sites with
  | none => afterStores
  | some sites =>
    sites.foldl (fun acc entry => process_docs_site_for_checklist entry.1 entry.2 acc) afterStores

/-- Initialization of one store's outcome record in `upgrade_project`,
performed immediately before its `upgrade_store_backend` call. -/
def initStoreOutcome (n : String) (st : HelperState) : HelperState :=
  { st with log := { st.log with upgraded_validations_stores := dictSet n ⟨[], false⟩ st.log.upgraded_validations_stores } }

/-- Initialization of one site's outcome record in `upgrade_project`. -/
def initSiteOutcome (n : String) (st : HelperState) : HelperState :=
  { st with log := { st.log with upgraded_docs_site_validations_stores := dictSet n ⟨[], false⟩ st.log.upgraded_docs_site_validations_stores } }

/-- Result of one of the two passes of `upgrade_project`: final state, the
events emitted, and the error caught by the pass's broad `except`, if
any (which aborts the remaining backends of that pass). -/
structure PassResult where
  st : HelperState
  evs : List Ev
  err : Option Err

/-- The validations-store pass of `upgrade_project`. -/
def runStoresPass (parse : String → ParseOutcome) :
    List (String × StoreBackend) → HelperState → PassResult
  | [], st => ⟨st, [], none⟩
  | (n, be) :: rest, st =>
    let r := upgrade_store_backend parse be (.store n) (initStoreOutcome n st)
    match r.err with
    | some e => ⟨r.st, r.evs, some e⟩
    | none =>
      let pr := runStoresPass parse rest r.st
      ⟨pr.st, r.evs ++ pr.evs, pr.err⟩

/-- The documentation-sites pass of `upgrade_project`. -/
def runSitesPass (parse : String → ParseOutcome) :
    List (String × StoreBackend) → HelperState → PassResult
  | [], st => ⟨st, [], none⟩
  | (n, be) :: rest, st =>
    let r := upgrade_store_backend parse be (.site n) (initSiteOutcome n st)
    match r.err with
    | some e => ⟨r.st, r.evs, some e⟩
    | none =>
      let pr := runSitesPass parse rest r.st
      ⟨pr.st, r.evs ++ pr.evs, pr.err⟩

/-- `upgrade_project` with full observability: builds the checklist (as
`__init__` does), runs the two passes — each wrapped in the broad
`try/except: pass` that swallows an escaping error but keeps the state
mutations made so far — and keeps the whole-session event trace. -/
def upgradeProjectFull (ctx : Ctx) : HelperState × List Ev :=
  let cl := (generate_upgrade_checklist ctx).1
  let st0 : HelperState := ⟨(generate_upgrade_checklist ctx).2, []⟩
  let p1 := runStoresPass ctx.parse cl.validations_store_backends st0
  let p2 := runSitesPass ctx.parse cl.docs_validations_store_backends p1.st
  (p2.st, p1.evs ++ p2.evs)

/-- `upgrade_project`: the returned upgrade log. -/
def upgrade_project (ctx : Ctx) : UpgradeLog := (upgradeProjectFull ctx).1.log

/-! ## Concrete fixtures used by evaluation theorems and witnesses -/

/-- A URL resolver that succeeds for every key. -/
def testUrl (k : Key) : Except Err String := .ok ("url://" ++ keyText k)

/-- A deserialized validation-result value with `meta.run_id` plus
unrelated fields. -/
def sampleJson : Json :=
  .obj [("meta", .obj [("run_id", .str "old"), ("batch", .str "b1")]), ("results", .arr [])]

/-- A filesystem-kind backend whose `list_keys` raises. -/
def beListErr : StoreBackend :=
  ⟨.tupleFilesystem, .error "listing failed", fun _ => .ok sampleJson,
    fun _ _ => .ok (), fun _ => .ok (), fun _ _ => .ok (), testUrl, fun _ => .error "no file"⟩

/-- A healthy filesystem-kind backend listing the given keys. -/
def beGood (ks : List Key) : StoreBackend :=
  ⟨.tupleFilesystem, .ok ks, fun _ => .ok sampleJson,
    fun _ _ => .ok (), fun _ => .ok (), fun _ _ => .ok (), testUrl, fun _ => .error "no file"⟩

/-- A parser that accepts every run name. -/
def parseAllOk : String → ParseOutcome := fun s => .ok (s ++ "+00:00")

/-- Two validations stores; the first one's `list_keys` raises, the second
is healthy and has one migratable key. -/
def ctxC1 : Ctx :=
  ⟨[("store_a", ⟨.validations, beListErr⟩), ("store_b", ⟨.validations, beGood [["v", "run1", "f.json"]]⟩)],
    none, parseAllOk⟩

/-- One store with one key whose run name is not date-like and whose
backend provenance fetch fails: run-time resolution fails for that key. -/
def beC2 : StoreBackend :=
  ⟨.tupleFilesystem, .ok [["v", "sub", "myrun", "f.json"]], fun _ => .ok sampleJson,
    fun _ _ => .ok (), fun _ => .ok (), fun _ _ => .ok (), testUrl, fun _ => .error "mtime failed"⟩

def ctxC2 : Ctx := ⟨[("vstore", ⟨.validations, beC2⟩)], none, fun _ => .parserError⟩

/-- One store with two keys: run-time resolution fails for the first and
succeeds for the second. -/
def beC3 : StoreBackend :=
  ⟨.tupleFilesystem, .ok [["v", "badrun", "a.json"], ["v", "goodrun", "b.json"]], fun _ => .ok sampleJson,
    fun _ _ => .ok (), fun _ => .ok (), fun _ _ => .ok (), testUrl, fun _ => .error "mtime failed"⟩

def parseC3 : String → ParseOutcome :=
  fun s => if s = "goodrun" then .ok "2021-01-01T00:00:00" else .parserError

def ctxC3 : Ctx := ⟨[("vstore", ⟨.validations, beC3⟩)], none, parseC3⟩

/-! ## C1 -/

/-- Claim C1: when a migratable backend's `list_keys` raises, the code
does record exactly one exception entry for that backend with source and
destination `"N/A"` and zero `"updated"` entries — but it then falls into
the `for` loop over the never-assigned `validation_source_keys`, raising
`UnboundLocalError`, which `upgrade_project`'s broad `except` catches by
abandoning the whole validations pass: here the healthy second store
`store_b` is never initialized or migrated, contradicting the claim that
only the failing backend stops.  This theorem evaluates the code at that
failing input. -/
theorem c1_listing_failure_aborts_whole_pass :
    (upgrade_project ctxC1).exceptions =
      [⟨true, "store_a", "N/A", "N/A", formatExceptionMessage "listing failed"⟩]
    ∧ (upgrade_project ctxC1).upgraded_validations_stores = [("store_a", ⟨[], true⟩)]
    ∧ dictGet "store_b" (upgrade_project ctxC1).upgraded_validations_stores = none
    ∧ (upgradeProjectFull ctxC1).2 = [] := by
  exact ⟨rfl, rfl, rfl, rfl⟩

/-! ## C2 -/

/-- Claim C2: a key whose run-time resolution raises is indeed logged as
an exception entry with destination `"N/A"` and its destination key is
never computed — but, lacking a `continue`, the loop then still runs the
transfer block with `dest_key = None`, which fails (`KeyError` on the
missing cached run time before any backend operation) and appends a
second exception entry for the same key, so processing does not move
directly to the next key with a single logged failure.  The event trace
confirms no backend get/set/remove/move was performed. -/
theorem c2_resolution_failure_double_logged :
    (upgrade_project ctxC2).exceptions =
      [⟨true, "vstore", "url://v/sub/myrun/f.json", "N/A", formatExceptionMessage "mtime failed"⟩,
       ⟨true, "vstore", "url://v/sub/myrun/f.json", "N/A",
         formatExceptionMessage "KeyError: run_name not in validation_run_times"⟩]
    ∧ (upgrade_project ctxC2).upgraded_validations_stores = [("vstore", ⟨[], true⟩)]
    ∧ (upgradeProjectFull ctxC2).2 = [.resolveCall "myrun", .provenanceCall "myrun"] := by
  exact ⟨rfl, rfl, rfl⟩

/-! ## C3 -/

/-- Claim C3: at this input the first key (failed run-time resolution)
contributes two exception entries — not exactly one contribution to the
migration outcome as claimed — while the second key is still attempted
and lands in `"updated"`, so the failure-isolation half of the claim is
visible at the same input. -/
theorem c3_key_contributes_twice :
    (upgrade_project ctxC3).exceptions =
      [⟨true, "vstore", "url://v/badrun/a.json", "N/A", formatExceptionMessage "mtime failed"⟩,
       ⟨true, "vstore", "url://v/badrun/a.json", "N/A",
         formatExceptionMessage "KeyError: run_name not in validation_run_times"⟩]
    ∧ (upgrade_project ctxC3).upgraded_validations_stores =
      [("vstore", ⟨[("url://v/goodrun/b.json", "url://v/goodrun/2021-01-01T00:00:00/b.json")], true⟩)] := by
  exact ⟨rfl, rfl⟩


/-! ## C4: destination-key invariant -/

theorem secondToLast_append : ∀ (init : List String) (a b : String),
    secondToLast (init ++ [a, b]) = some a
  | [], _, _ => rfl
  | [_], _, _ => rfl
  | _ :: y :: init, a, b => by
    cases init with
    | nil => rfl
    | cons z zs =>
      show secondToLast (y :: z :: (zs ++ [a, b])) = some a
      exact secondToLast_append (y :: z :: zs) a b

theorem pyInsertNeg1_append : ∀ (init : List String) (a b t : String),
    pyInsertNeg1 t (init ++ [a, b]) = init ++ [a, t, b]
  | [], _, _, _ => rfl
  | x :: init, a, b, t => by
    cases init with
    | nil => rfl
    | cons z zs =>
      show x :: pyInsertNeg1 t (z :: (zs ++ [a, b])) = x :: (z :: zs ++ [a, t, b])
      exact congrArg (x :: ·) (pyInsertNeg1_append (z :: zs) a b t)

/-- `_update_upgrade_log` never touches the run-time cache. -/
theorem update_upgrade_log_cache (be : StoreBackend) (ident : Identity)
    (sk dk : Option Key) (msg : Option String) (st : HelperState) :
    (update_upgrade_log be ident sk dk msg st).1.validation_run_times = st.validation_run_times := by
  unfold update_upgrade_log
  cases msg <;> cases ident <;> dsimp only <;> (split <;> rfl)

theorem logAfterTransfer_cache (be : StoreBackend) (ident : Identity) (k : Key)
    (dk : Option Key) (terr : Option Err) (st : HelperState) :
    (logAfterTransfer be ident k dk terr st).1.validation_run_times = st.validation_run_times := by
  unfold logAfterTransfer
  cases terr with
  | some e => exact update_upgrade_log_cache ..
  | none =>
    rcases h : update_upgrade_log be ident (some k) dk none st with ⟨st1, e1⟩
    have h1 : st1.validation_run_times = st.validation_run_times := by
      have h2 := update_upgrade_log_cache be ident (some k) dk none st
      rw [h] at h2; exact h2
    cases e1 with
    | none => exact h1
    | some e =>
      dsimp only
      rw [update_upgrade_log_cache, h1]

theorem runBlock2_cache (be : StoreBackend) (ident : Identity) (k : Key)
    (locals : LoopLocals) (st : HelperState) (evs0 : List Ev) :
    (runBlock2 be ident k locals st evs0).st.validation_run_times = st.validation_run_times := by
  unfold runBlock2
  cases locals.dest_key with
  | none => rfl
  | some dk => exact logAfterTransfer_cache ..

theorem runBlock2_locals (be : StoreBackend) (ident : Identity) (k : Key)
    (locals : LoopLocals) (st : HelperState) (evs0 : List Ev) :
    (runBlock2 be ident k locals st evs0).locals = locals := by
  unfold runBlock2
  cases locals.dest_key <;> rfl

theorem logBlock1Failure_cache (be : StoreBackend) (ident : Identity) (k : Key)
    (locals1 : LoopLocals) (e : Err) (st : HelperState) :
    (logBlock1Failure be ident k locals1 e st).1.validation_run_times = st.validation_run_times := by
  unfold logBlock1Failure
  cases locals1.dest_key with
  | none => rfl
  | some dk => exact update_upgrade_log_cache ..

/-- Processing one key leaves exactly the run-time cache computed by the
first `try` block. -/
theorem processSourceKey_cache (parse : String → ParseOutcome) (be : StoreBackend)
    (ident : Identity) (k : Key) (locals : LoopLocals) (st : HelperState) :
    (processSourceKey parse be ident k locals st).st.validation_run_times =
      (tryComputeDestKey parse be k locals st.validation_run_times).cache := by
  unfold processSourceKey
  dsimp only
  cases hexc : (tryComputeDestKey parse be k locals st.validation_run_times).exc with
  | none => exact runBlock2_cache ..
  | some e =>
    dsimp only
    cases he2 : (logBlock1Failure be ident k
        (tryComputeDestKey parse be k locals st.validation_run_times).locals e
        { st with validation_run_times := (tryComputeDestKey parse be k locals st.validation_run_times).cache }).2 with
    | some e2 => exact logBlock1Failure_cache ..
    | none => rw [runBlock2_cache]; exact logBlock1Failure_cache ..

/-- Processing one key leaves exactly the loop locals computed by the
first `try` block. -/
theorem processSourceKey_locals (parse : String → ParseOutcome) (be : StoreBackend)
    (ident : Identity) (k : Key) (locals : LoopLocals) (st : HelperState) :
    (processSourceKey parse be ident k locals st).locals =
      (tryComputeDestKey parse be k locals st.validation_run_times).locals := by
  unfold processSourceKey
  dsimp only
  cases hexc : (tryComputeDestKey parse be k locals st.validation_run_times).exc with
  | none => exact runBlock2_locals ..
  | some e =>
    dsimp only
    cases he2 : (logBlock1Failure be ident k
        (tryComputeDestKey parse be k locals st.validation_run_times).locals e
        { st with validation_run_times := (tryComputeDestKey parse be k locals st.validation_run_times).cache }).2 with
    | some e2 => rfl
    | none => exact runBlock2_locals ..

/-- Whenever the first `try` block computes a destination key for a
source key of shape `init ++ [runId, tl]`, that destination is obtained
by inserting the cached run time immediately before the final segment. -/
theorem tryComputeDestKey_dest (parse : String → ParseOutcome) (be : StoreBackend)
    (locals : LoopLocals) (cache : List (String × String))
    (init : List String) (a b : String) (d : Key)
    (h : (tryComputeDestKey parse be (init ++ [a, b]) locals cache).locals.dest_key = some (some d)) :
    ∃ t, dictGet a (tryComputeDestKey parse be (init ++ [a, b]) locals cache).cache = some t ∧
      d = init ++ [a, t, b] := by
  unfold tryComputeDestKey at h ⊢
  rw [secondToLast_append] at h ⊢
  dsimp only at h ⊢
  cases hc : dictGet a cache with
  | some t =>
    rw [hc] at h
    dsimp only at h ⊢
    refine ⟨t, hc, ?_⟩
    have hd : some (some (pyInsertNeg1 t (init ++ [a, b]))) = some (some d) := h
    rw [← Option.some_inj.mp (Option.some_inj.mp hd), pyInsertNeg1_append]
  | none =>
    rw [hc] at h
    rcases hdp : dispatchRunTimeSetter parse be (init ++ [a, b]) cache with ⟨c2, evs, err⟩
    rw [hdp] at h
    cases err with
    | some e => simp at h
    | none =>
      dsimp only at h ⊢
      cases hc2 : dictGet a c2 with
      | some t =>
        rw [hc2] at h
        dsimp only at h ⊢
        refine ⟨t, hc2, ?_⟩
        have hd : some (some (pyInsertNeg1 t (init ++ [a, b]))) = some (some d) := h
        rw [← Option.some_inj.mp (Option.some_inj.mp hd), pyInsertNeg1_append]
      | none =>
        rw [hc2] at h
        simp at h

/-- Claim C4: for a source key `init ++ [runId, tl]`, whenever
`upgrade_store_backend`'s key loop computes a destination key, it equals
`init ++ [runId, t, tl]` where `t` is the run time cached for `runId` at
the end of that key's processing — the segment count grows by exactly
one and every other segment is unchanged and keeps its position. -/
theorem c4_destination_key_inserts_run_time (parse : String → ParseOutcome)
    (be : StoreBackend) (ident : Identity) (locals : LoopLocals) (st : HelperState)
    (init : List String) (runId tl : String) (d : Key)
    (h : (processSourceKey parse be ident (init ++ [runId, tl]) locals st).locals.dest_key = some (some d)) :
    ∃ t, dictGet runId (processSourceKey parse be ident (init ++ [runId, tl]) locals st).st.validation_run_times = some t
      ∧ d = init ++ [runId, t, tl]
      ∧ d.length = (init ++ [runId, tl]).length + 1 := by
  rw [processSourceKey_locals] at h
  obtain ⟨t, ht, hd⟩ := tryComputeDestKey_dest parse be locals st.validation_run_times init runId tl d h
  refine ⟨t, ?_, hd, ?_⟩
  · rw [processSourceKey_cache]; exact ht
  · rw [hd]; simp

/-- Witness for C4 at a concrete input: key `["v", "run", "x.json"]` with
`"run"` already resolved to `"T0"`; the computed destination key is
`["v", "run", "T0", "x.json"]`. -/
theorem c4_witness :
    ∃ t, dictGet "run" (processSourceKey (fun _ => .ok "T") (beGood []) (.store "s")
        (["v"] ++ ["run", "x.json"]) ⟨none, none⟩ ⟨emptyUpgradeLog, [("run", "T0")]⟩).st.validation_run_times = some t
      ∧ (["v", "run", "T0", "x.json"] : Key) = ["v"] ++ ["run", t, "x.json"]
      ∧ (["v", "run", "T0", "x.json"] : Key).length = ((["v"] ++ ["run", "x.json"] : List String)).length + 1 :=
  c4_destination_key_inserts_run_time (fun _ => .ok "T") (beGood []) (.store "s")
    ⟨none, none⟩ ⟨emptyUpgradeLog, [("run", "T0")]⟩ ["v"] "run" "x.json"
    ["v", "run", "T0", "x.json"] (by decide)

/-! ## C5: the run-time cache is write-once per run identifier -/

theorem dictGet_dictSet_self {α : Type} (k : String) (v : α) :
    ∀ l, dictGet k (dictSet k v l) = some v
  | [] => by simp [dictGet, dictSet]
  | (k', v') :: rest => by
    by_cases h : k' = k
    · simp [dictGet, dictSet, h]
    · simp [dictGet, dictSet, h, dictGet_dictSet_self k v rest]

theorem dictGet_dictSet_ne {α : Type} (k m : String) (v : α) (hne : k ≠ m) :
    ∀ l, dictGet m (dictSet k v l) = dictGet m l
  | [] => by simp [dictGet, dictSet, hne]
  | (k', v') :: rest => by
    by_cases h : k' = k
    · subst h
      simp [dictGet, dictSet, hne]
    · simp only [dictSet, if_neg h, dictGet]
      by_cases h2 : k' = m
      · simp [h2]
      · simp [h2, dictGet_dictSet_ne k m v hne rest]

/-- How one event updates the cache when the trace is replayed. -/
def replayStep (c : List (String × String)) : Ev → List (String × String)
  | .resolved n t => dictSet n t c
  | _ => c

def replayCache (c : List (String × String)) : List Ev → List (String × String)
  | [] => c
  | e :: rest => replayCache (replayStep c e) rest

/-- Validity of one event against the cache state at its position: the
resolver is only invoked — and the backend provenance only queried, and a
resolution only recorded — for a run name not yet cached, and a cached
run time is only read at its cached value. -/
def EvOk (c : List (String × String)) : Ev → Prop
  | .resolveCall n => dictGet n c = none
  | .provenanceCall n => dictGet n c = none
  | .resolved n _ => dictGet n c = none
  | .usedRunTime n t => dictGet n c = some t
  | _ => True

def TraceOk (c : List (String × String)) : List Ev → Prop
  | [] => True
  | e :: rest => EvOk c e ∧ TraceOk (replayStep c e) rest

theorem TraceOk_nil (c : List (String × String)) : TraceOk c [] := trivial

theorem TraceOk_cons (c : List (String × String)) (e : Ev) (rest : List Ev) :
    TraceOk c (e :: rest) ↔ EvOk c e ∧ TraceOk (replayStep c e) rest := Iff.rfl

theorem replayCache_append (l1 l2 : List Ev) :
    ∀ c, replayCache c (l1 ++ l2) = replayCache (replayCache c l1) l2 := by
  induction l1 with
  | nil => intro c; rfl
  | cons e rest ih => intro c; exact ih (replayStep c e)

theorem traceOk_append (l1 l2 : List Ev) :
    ∀ c, TraceOk c (l1 ++ l2) ↔ TraceOk c l1 ∧ TraceOk (replayCache c l1) l2 := by
  induction l1 with
  | nil => intro c; simp [TraceOk, replayCache]
  | cons e rest ih =>
    intro c
    rw [List.cons_append, TraceOk_cons, TraceOk_cons, ih (replayStep c e)]
    show _ ↔ (EvOk c e ∧ TraceOk (replayStep c e) rest) ∧ TraceOk (replayCache (replayStep c e) rest) l2
    tauto

/-- Events that are plain backend data operations: they neither read nor
write the run-time cache. -/
def isStoreOpEv : Ev → Bool
  | .getOp _ => true
  | .setOp _ _ => true
  | .removeOp _ => true
  | .moveOp _ _ => true
  | _ => false

theorem traceOk_ops : ∀ (evs : List Ev) (c : List (String × String)),
    (∀ e ∈ evs, isStoreOpEv e = true) → TraceOk c evs ∧ replayCache c evs = c
  | [], _, _ => ⟨trivial, rfl⟩
  | e :: rest, c, h => by
    have he := h e (List.mem_cons_self e rest)
    have hrest := fun e' he' => h e' (List.mem_cons_of_mem e he')
    have ih := traceOk_ops rest c hrest
    cases e <;>
      first
        | exact ⟨⟨trivial, ih.1⟩, ih.2⟩
        | simp [isStoreOpEv] at he

theorem update_validation_result_json_ops (be : StoreBackend) (k : Key)
    (dk : Option Key) (rn : Option String) (cache : List (String × String)) :
    ((update_validation_result_json be k dk rn cache).2).all isStoreOpEv = true := by
  unfold update_validation_result_json
  dsimp only
  repeat' split
  all_goals rfl

theorem transferStep_ops (be : StoreBackend) (ident : Identity) (k : Key)
    (dk : Option Key) (rn : Option String) (cache : List (String × String)) :
    ((transferStep be ident k dk rn cache).2).all isStoreOpEv = true := by
  unfold transferStep
  cases ident with
  | store n =>
    dsimp only
    exact update_validation_result_json_ops ..
  | site n =>
    dsimp only
    repeat' split
    all_goals rfl

/-- The run-time setter emits a valid trace and its cache result is the
replay of that trace — provided it was invoked on an uncached run name,
as the engine guarantees. -/
theorem runTimeSetterCore_trace (parse : String → ParseOutcome) (be : StoreBackend)
    (k : Key) (cache : List (String × String)) (rn : String)
    (hrn : secondToLast k = some rn) (hmiss : dictGet rn cache = none) :
    TraceOk cache (runTimeSetterCore parse be k cache).2.1 ∧
    (runTimeSetterCore parse be k cache).1 = replayCache cache (runTimeSetterCore parse be k cache).2.1 := by
  unfold runTimeSetterCore
  rw [hrn]
  dsimp only
  cases parse rn with
  | ok iso =>
    exact ⟨(TraceOk_cons ..).mpr ⟨hmiss, trivial⟩, rfl⟩
  | otherError m => exact ⟨trivial, rfl⟩
  | parserError =>
    cases hp : be.provenance k with
    | ok t =>
      exact ⟨(TraceOk_cons ..).mpr ⟨hmiss, (TraceOk_cons ..).mpr ⟨hmiss, trivial⟩⟩, rfl⟩
    | error e =>
      exact ⟨(TraceOk_cons ..).mpr ⟨hmiss, trivial⟩, rfl⟩

theorem dispatchRunTimeSetter_trace (parse : String → ParseOutcome) (be : StoreBackend)
    (k : Key) (cache : List (String × String)) (rn : String)
    (hrn : secondToLast k = some rn) (hmiss : dictGet rn cache = none) :
    TraceOk cache (dispatchRunTimeSetter parse be k cache).2.1 ∧
    (dispatchRunTimeSetter parse be k cache).1 = replayCache cache (dispatchRunTimeSetter parse be k cache).2.1 := by
  unfold dispatchRunTimeSetter
  split
  · exact runTimeSetterCore_trace parse be k cache rn hrn hmiss
  · exact ⟨trivial, rfl⟩

/-- The first `try` block emits a valid trace and its cache result is the
replay of that trace. -/
theorem tryComputeDestKey_trace (parse : String → ParseOutcome) (be : StoreBackend)
    (k : Key) (locals : LoopLocals) (cache : List (String × String)) :
    TraceOk cache (tryComputeDestKey parse be k locals cache).evs ∧
    (tryComputeDestKey parse be k locals cache).cache =
      replayCache cache (tryComputeDestKey parse be k locals cache).evs := by
  unfold tryComputeDestKey
  cases hrn : secondToLast k with
  | none => exact ⟨trivial, rfl⟩
  | some rn =>
    dsimp only
    cases hc : dictGet rn cache with
    | some t =>
      exact ⟨(TraceOk_cons ..).mpr ⟨hc, trivial⟩, rfl⟩
    | none =>
      rcases hd : dispatchRunTimeSetter parse be k cache with ⟨c2, sevs, err⟩
      have htr := dispatchRunTimeSetter_trace parse be k cache rn hrn hc
      rw [hd] at htr
      obtain ⟨htr1, htr2⟩ := htr
      cases err with
      | some e => exact ⟨(TraceOk_cons ..).mpr ⟨hc, htr1⟩, htr2⟩
      | none =>
        dsimp only
        cases hc2 : dictGet rn c2 with
        | none => exact ⟨(TraceOk_cons ..).mpr ⟨hc, htr1⟩, htr2⟩
        | some t =>
          constructor
          · show TraceOk cache ((Ev.resolveCall rn :: sevs) ++ [Ev.usedRunTime rn t])
            rw [traceOk_append]
            refine ⟨(TraceOk_cons ..).mpr ⟨hc, htr1⟩, ?_⟩
            show TraceOk (replayCache cache (Ev.resolveCall rn :: sevs)) [Ev.usedRunTime rn t]
            refine (TraceOk_cons ..).mpr ⟨?_, trivial⟩
            show dictGet rn (replayCache cache sevs) = some t
            rw [← htr2]; exact hc2
          · show c2 = replayCache cache ((Ev.resolveCall rn :: sevs) ++ [Ev.usedRunTime rn t])
            rw [replayCache_append]
            exact htr2

/-- The second `try` block extends a valid trace with backend-operation
events only, leaving the cache untouched. -/
theorem runBlock2_trace (be : StoreBackend) (ident : Identity) (k : Key)
    (locals : LoopLocals) (st : HelperState) (evs0 : List Ev)
    (c0 : List (String × String))
    (h0 : TraceOk c0 evs0) (hc : st.validation_run_times = replayCache c0 evs0) :
    TraceOk c0 (runBlock2 be ident k locals st evs0).evs ∧
    (runBlock2 be ident k locals st evs0).st.validation_run_times =
      replayCache c0 (runBlock2 be ident k locals st evs0).evs := by
  unfold runBlock2
  cases locals.dest_key with
  | none => exact ⟨h0, hc⟩
  | some dk =>
    dsimp only
    have hops := List.all_eq_true.mp (transferStep_ops be ident k dk locals.run_name st.validation_run_times)
    have hto := traceOk_ops (transferStep be ident k dk locals.run_name st.validation_run_times).2
      (replayCache c0 evs0) hops
    constructor
    · rw [traceOk_append]
      exact ⟨h0, hto.1⟩
    · rw [logAfterTransfer_cache, replayCache_append, hto.2]
      exact hc

/-- Processing one key extends a valid trace and ends with the replayed
cache. -/
theorem processSourceKey_trace (parse : String → ParseOutcome) (be : StoreBackend)
    (ident : Identity) (k : Key) (locals : LoopLocals) (st : HelperState) :
    TraceOk st.validation_run_times (processSourceKey parse be ident k locals st).evs ∧
    (processSourceKey parse be ident k locals st).st.validation_run_times =
      replayCache st.validation_run_times (processSourceKey parse be ident k locals st).evs := by
  unfold processSourceKey
  dsimp only
  have hb1 := tryComputeDestKey_trace parse be k locals st.validation_run_times
  cases hexc : (tryComputeDestKey parse be k locals st.validation_run_times).exc with
  | none => exact runBlock2_trace be ident k _ _ _ _ hb1.1 hb1.2
  | some e =>
    dsimp only
    cases he2 : (logBlock1Failure be ident k
        (tryComputeDestKey parse be k locals st.validation_run_times).locals e
        { st with validation_run_times := (tryComputeDestKey parse be k locals st.validation_run_times).cache }).2 with
    | some e2 =>
      refine ⟨hb1.1, ?_⟩
      rw [logBlock1Failure_cache]
      exact hb1.2
    | none =>
      exact runBlock2_trace be ident k _ _ _ _ hb1.1
        (by rw [logBlock1Failure_cache]; exact hb1.2)

/-- The key loop extends a valid trace and ends with the replayed cache. -/
theorem processKeys_trace (parse : String → ParseOutcome) (be : StoreBackend)
    (ident : Identity) : ∀ (ks : List Key) (locals : LoopLocals) (st : HelperState),
    TraceOk st.validation_run_times (processKeys parse be ident ks locals st).evs ∧
    (processKeys parse be ident ks locals st).st.validation_run_times =
      replayCache st.validation_run_times (processKeys parse be ident ks locals st).evs
  | [], _, _ => ⟨trivial, rfl⟩
  | k :: ks, locals, st => by
    unfold processKeys
    dsimp only
    have hb := processSourceKey_trace parse be ident k locals st
    cases herr : (processSourceKey parse be ident k locals st).err with
    | some e => exact hb
    | none =>
      dsimp only
      have ih := processKeys_trace parse be ident ks
        (processSourceKey parse be ident k locals st).locals
        (processSourceKey parse be ident k locals st).st
      constructor
      · rw [traceOk_append]
        refine ⟨hb.1, ?_⟩
        rw [← hb.2]
        exact ih.1
      · rw [replayCache_append, ← hb.2]
        exact ih.2

theorem upgrade_store_backend_trace (parse : String → ParseOutcome) (be : StoreBackend)
    (ident : Identity) (st : HelperState) :
    TraceOk st.validation_run_times (upgrade_store_backend parse be ident st).evs ∧
    (upgrade_store_backend parse be ident st).st.validation_run_times =
      replayCache st.validation_run_times (upgrade_store_backend parse be ident st).evs := by
  unfold upgrade_store_backend
  cases hl : be.list_keys with
  | ok ks => exact processKeys_trace parse be ident ks ⟨none, none⟩ st
  | error e =>
    dsimp only
    rcases hu : update_upgrade_log be ident none none (some (formatExceptionMessage e)) st with ⟨st1, e1⟩
    have h1 : st1.validation_run_times = st.validation_run_times := by
      have h2 := update_upgrade_log_cache be ident none none (some (formatExceptionMessage e)) st
      rw [hu] at h2; exact h2
    cases e1 with
    | some e2 => exact ⟨trivial, h1⟩
    | none => exact ⟨trivial, h1⟩

theorem runStoresPass_trace (parse : String → ParseOutcome) :
    ∀ (cl : List (String × StoreBackend)) (st : HelperState),
    TraceOk st.validation_run_times (runStoresPass parse cl st).evs ∧
    (runStoresPass parse cl st).st.validation_run_times =
      replayCache st.validation_run_times (runStoresPass parse cl st).evs
  | [], _ => ⟨trivial, rfl⟩
  | (n, be) :: rest, st => by
    unfold runStoresPass
    dsimp only
    have hb := upgrade_store_backend_trace parse be (.store n) (initStoreOutcome n st)
    cases herr : (upgrade_store_backend parse be (.store n) (initStoreOutcome n st)).err with
    | some e => exact hb
    | none =>
      dsimp only
      have hb1 : TraceOk st.validation_run_times
          (upgrade_store_backend parse be (.store n) (initStoreOutcome n st)).evs := hb.1
      have hb2 : (upgrade_store_backend parse be (.store n) (initStoreOutcome n st)).st.validation_run_times =
          replayCache st.validation_run_times
            (upgrade_store_backend parse be (.store n) (initStoreOutcome n st)).evs := hb.2
      have ih := runStoresPass_trace parse rest
        (upgrade_store_backend parse be (.store n) (initStoreOutcome n st)).st
      constructor
      · rw [traceOk_append]
        exact ⟨hb1, hb2 ▸ ih.1⟩
      · rw [replayCache_append, ← hb2]
        exact ih.2

theorem runSitesPass_trace (parse : String → ParseOutcome) :
    ∀ (cl : List (String × StoreBackend)) (st : HelperState),
    TraceOk st.validation_run_times (runSitesPass parse cl st).evs ∧
    (runSitesPass parse cl st).st.validation_run_times =
      replayCache st.validation_run_times (runSitesPass parse cl st).evs
  | [], _ => ⟨trivial, rfl⟩
  | (n, be) :: rest, st => by
    unfold runSitesPass
    dsimp only
    have hb := upgrade_store_backend_trace parse be (.site n) (initSiteOutcome n st)
    cases herr : (upgrade_store_backend parse be (.site n) (initSiteOutcome n st)).err with
    | some e => exact hb
    | none =>
      dsimp only
      have hb1 : TraceOk st.validation_run_times
          (upgrade_store_backend parse be (.site n) (initSiteOutcome n st)).evs := hb.1
      have hb2 : (upgrade_store_backend parse be (.site n) (initSiteOutcome n st)).st.validation_run_times =
          replayCache st.validation_run_times
            (upgrade_store_backend parse be (.site n) (initSiteOutcome n st)).evs := hb.2
      have ih := runSitesPass_trace parse rest
        (upgrade_store_backend parse be (.site n) (initSiteOutcome n st)).st
      constructor
      · rw [traceOk_append]
        exact ⟨hb1, hb2 ▸ ih.1⟩
      · rw [replayCache_append, ← hb2]
        exact ih.2

/-- The whole-session event trace is valid against the initially empty
run-time cache. -/
theorem upgradeProjectFull_traceOk (ctx : Ctx) : TraceOk [] (upgradeProjectFull ctx).2 := by
  unfold upgradeProjectFull
  dsimp only
  have h1 := runStoresPass_trace ctx.parse (generate_upgrade_checklist ctx).1.validations_store_backends
    ⟨(generate_upgrade_checklist ctx).2, []⟩
  have h2 := runSitesPass_trace ctx.parse (generate_upgrade_checklist ctx).1.docs_validations_store_backends
    (runStoresPass ctx.parse (generate_upgrade_checklist ctx).1.validations_store_backends
      ⟨(generate_upgrade_checklist ctx).2, []⟩).st
  rw [traceOk_append]
  exact ⟨h1.1, h1.2 ▸ h2.1⟩

/-- After a valid trace has recorded `r ↦ t`, as long as the cache keeps
that binding no later event re-resolves `r` and every later read of `r`
yields `t`. -/
theorem traceOk_resolved_after (r t : String) : ∀ (post : List Ev) (c : List (String × String)),
    TraceOk c post → dictGet r c = some t →
    (∀ t', Ev.usedRunTime r t' ∈ post → t' = t) ∧ Ev.resolveCall r ∉ post ∧
      (∀ t', Ev.resolved r t' ∉ post) ∧ Ev.provenanceCall r ∉ post
  | [], _, _, _ =>
    ⟨fun _ h => absurd h (List.not_mem_nil _), List.not_mem_nil _,
      fun _ => List.not_mem_nil _, List.not_mem_nil _⟩
  | e :: rest, c, htr, hsome => by
    have h' := (TraceOk_cons ..).mp htr
    have hok := h'.1
    have hrest := h'.2
    have hpres : dictGet r (replayStep c e) = some t := by
      cases e with
      | resolved n u =>
        by_cases hn : n = r
        · exfalso
          have hok' : dictGet n c = none := hok
          rw [hn] at hok'
          rw [hok'] at hsome
          simp at hsome
        · show dictGet r (dictSet n u c) = some t
          rw [dictGet_dictSet_ne n r u hn]
          exact hsome
      | resolveCall n => exact hsome
      | provenanceCall n => exact hsome
      | usedRunTime n u => exact hsome
      | getOp k => exact hsome
      | setOp k v => exact hsome
      | removeOp k => exact hsome
      | moveOp s d => exact hsome
    have ih := traceOk_resolved_after r t rest (replayStep c e) hrest hpres
    refine ⟨?_, ?_, ?_, ?_⟩
    · intro t' hmem
      rcases List.mem_cons.mp hmem with heq | hmem'
      · have hok' : dictGet r c = some t' := by rw [← heq] at hok; exact hok
        rw [hok'] at hsome
        exact Option.some_inj.mp hsome
      · exact ih.1 t' hmem'
    · intro hmem
      rcases List.mem_cons.mp hmem with heq | hmem'
      · have hok' : dictGet r c = none := by rw [← heq] at hok; exact hok
        rw [hok'] at hsome
        simp at hsome
      · exact ih.2.1 hmem'
    · intro t' hmem
      rcases List.mem_cons.mp hmem with heq | hmem'
      · have hok' : dictGet r c = none := by rw [← heq] at hok; exact hok
        rw [hok'] at hsome
        simp at hsome
      · exact ih.2.2.1 t' hmem'
    · intro hmem
      rcases List.mem_cons.mp hmem with heq | hmem'
      · have hok' : dictGet r c = none := by rw [← heq] at hok; exact hok
        rw [hok'] at hsome
        simp at hsome
      · exact ih.2.2.2 hmem'

/-- Claim C5: within one migration session the run-time cache is
write-once per run identifier — once the session's trace records a
resolution `r ↦ t`, every later read of `r`'s run time (by any key of any
store or site in the session) yields the identical `t`, the resolver is
never invoked for `r` again, no second resolution of `r` is recorded, and
the backend provenance is never queried for `r` again. -/
theorem c5_run_time_resolved_once (ctx : Ctx) (pre post : List Ev) (r t : String)
    (h : (upgradeProjectFull ctx).2 = pre ++ Ev.resolved r t :: post) :
    (∀ t', Ev.usedRunTime r t' ∈ post → t' = t) ∧ Ev.resolveCall r ∉ post ∧
      (∀ t', Ev.resolved r t' ∉ post) ∧ Ev.provenanceCall r ∉ post := by
  have htr := upgradeProjectFull_traceOk ctx
  rw [h, traceOk_append] at htr
  have hpost := (TraceOk_cons ..).mp htr.2
  refine traceOk_resolved_after r t post (replayStep (replayCache [] pre) (Ev.resolved r t))
    hpost.2 ?_
  show dictGet r (dictSet r t (replayCache [] pre)) = some t
  exact dictGet_dictSet_self ..

/-- One store with two keys sharing the run identifier `"r1"`, which the
parser resolves to `"T1"`. -/
def beC5 : StoreBackend :=
  ⟨.tupleFilesystem, .ok [["v", "r1", "a.json"], ["v", "r1", "b.json"]], fun _ => .ok sampleJson,
    fun _ _ => .ok (), fun _ => .ok (), fun _ _ => .ok (), testUrl, fun _ => .error "no file"⟩

def ctxC5 : Ctx := ⟨[("vstore", ⟨.validations, beC5⟩)], none, fun _ => .ok "T1"⟩

/-- `sampleJson` after its `meta.run_id` has been overwritten with
`{"run_name": "r1", "run_time": "T1"}`. -/
def updatedSampleC5 : Json :=
  .obj [("meta", .obj [("run_id", .obj [("run_name", .str "r1"), ("run_time", .str "T1")]),
    ("batch", .str "b1")]), ("results", .arr [])]

/-- The session trace of `ctxC5` after the single resolution event. -/
def postC5 : List Ev :=
  [.usedRunTime "r1" "T1", .getOp ["v", "r1", "a.json"],
   .setOp ["v", "r1", "T1", "a.json"] updatedSampleC5, .removeOp ["v", "r1", "a.json"],
   .usedRunTime "r1" "T1", .getOp ["v", "r1", "b.json"],
   .setOp ["v", "r1", "T1", "b.json"] updatedSampleC5, .removeOp ["v", "r1", "b.json"]]

theorem c5_witness :
    (∀ t', Ev.usedRunTime "r1" t' ∈ postC5 → t' = "T1") ∧ Ev.resolveCall "r1" ∉ postC5 ∧
      (∀ t', Ev.resolved "r1" t' ∉ postC5) ∧ Ev.provenanceCall "r1" ∉ postC5 :=
  c5_run_time_resolved_once ctxC5 [Ev.resolveCall "r1"] postC5 "r1" "T1" (by rfl)

/-! ## C6: classification completeness -/

/-- Number of occurrences of a name among the keys of an association
list. -/
def countName {β : Type} (n : String) : List (String × β) → Nat
  | [] => 0
  | (k, _) :: rest => (if k = n then 1 else 0) + countName n rest

theorem countName_append {β : Type} (n : String) (l1 l2 : List (String × β)) :
    countName n (l1 ++ l2) = countName n l1 + countName n l2 := by
  induction l1 with
  | nil => simp [countName]
  | cons p rest ih =>
    rcases p with ⟨k, v⟩
    simp [countName, ih]
    omega

theorem countName_dictSet_fresh {β : Type} (n : String) (v : β) :
    ∀ l, countName n l = 0 → countName n (dictSet n v l) = 1
  | [], _ => by simp [countName, dictSet]
  | (k, w) :: rest, h => by
    by_cases hk : k = n
    · exfalso
      simp [countName, hk] at h
    · simp only [dictSet, if_neg hk, countName]
      simp only [countName, if_neg hk, Nat.zero_add] at h ⊢
      exact countName_dictSet_fresh n v rest h

theorem countName_dictSet_other {β : Type} {m n : String} (v : β)
    (l : List (String × β)) (hmn : m ≠ n) :
    countName n (dictSet m v l) = countName n l := by
  induction l with
  | nil => simp [countName, dictSet, hmn]
  | cons p rest ih =>
    rcases p with ⟨k, w⟩
    by_cases hk : k = m
    · subst hk
      simp [dictSet, countName]
    · simp [dictSet, if_neg hk, countName, ih]

theorem countName_append_self {β : Type} (n : String) (x : β) (l : List (String × β)) :
    countName n (l ++ [(n, x)]) = countName n l + 1 := by
  simp [countName_append, countName]

/-- Total number of appearances of a store name across the five
store-side buckets: the migration checklist, skip/database and
skip/unsupported for validations stores, and skip/database and
skip/unsupported for metric stores. -/
def storeBucketOccurrences (n : String) (res : UpgradeChecklist × UpgradeLog) : Nat :=
  countName n res.1.validations_store_backends
    + countName n res.2.skipped_validations_database
    + countName n res.2.skipped_validations_unsupported
    + countName n res.2.skipped_metrics_database
    + countName n res.2.skipped_metrics_unsupported

/-- Total number of appearances of a site name across the two site-side
buckets. -/
def siteBucketOccurrences (n : String) (res : UpgradeChecklist × UpgradeLog) : Nat :=
  countName n res.1.docs_validations_store_backends
    + countName n res.2.skipped_docs_unsupported

/-- The number of store-side bucket entries one registry entry
contributes: `1` for a validations store and for a metric store not
backed by the in-memory kind; `0` for an in-memory-backed metric store
and for a store of any other type. -/
def storeDelta (s : RegisteredStore) : Nat :=
  match s.ty with
  | .validations => 1
  | .metric => if s.store_backend.kind = .inMemory then 0 else 1
  | .otherStore => 0

theorem checklistStoreStep_other (acc : UpgradeChecklist × UpgradeLog)
    (p : String × RegisteredStore) (n : String) (hne : p.1 ≠ n) :
    storeBucketOccurrences n (checklistStoreStep acc p) = storeBucketOccurrences n acc := by
  rcases p with ⟨m, s⟩
  replace hne : m ≠ n := hne
  unfold checklistStoreStep
  cases s.ty with
  | validations =>
    dsimp only
    unfold process_validations_store_for_checklist
    split
    · simp [storeBucketOccurrences, countName_append, countName, hne]
    · split
      · simp [storeBucketOccurrences, countName_dictSet_other _ _ hne]
      · simp [storeBucketOccurrences, countName_append, countName, hne]
  | metric =>
    dsimp only
    unfold process_metrics_store_for_checklist
    split
    · simp [storeBucketOccurrences, countName_append, countName, hne]
    · split
      · rfl
      · simp [storeBucketOccurrences, countName_append, countName, hne]
  | otherStore => rfl

theorem checklistStoreStep_self (acc : UpgradeChecklist × UpgradeLog)
    (n : String) (s : RegisteredStore)
    (h0 : storeBucketOccurrences n acc = 0) :
    storeBucketOccurrences n (checklistStoreStep acc (n, s)) = storeDelta s := by
  have h1 : countName n acc.1.validations_store_backends = 0 := by
    unfold storeBucketOccurrences at h0; omega
  unfold checklistStoreStep storeDelta
  cases s.ty with
  | validations =>
    dsimp only
    unfold process_validations_store_for_checklist
    split
    · simp only [storeBucketOccurrences, countName_append_self] at h0 ⊢
      omega
    · split
      · simp only [storeBucketOccurrences] at h0 ⊢
        rw [countName_dictSet_fresh n _ _ h1]
        omega
      · simp only [storeBucketOccurrences, countName_append_self] at h0 ⊢
        omega
  | metric =>
    dsimp only
    unfold process_metrics_store_for_checklist
    split
    · rename_i hdb
      have hni : s.store_backend.kind ≠ .inMemory := by rw [hdb]; decide
      rw [if_neg hni]
      simp only [storeBucketOccurrences, countName_append_self] at h0 ⊢
      omega
    · split
      · exact h0
      · simp only [storeBucketOccurrences, countName_append_self] at h0 ⊢
        omega
  | otherStore =>
    exact h0

theorem checklistStoreStep_site (acc : UpgradeChecklist × UpgradeLog)
    (p : String × RegisteredStore) (n : String) :
    siteBucketOccurrences n (checklistStoreStep acc p) = siteBucketOccurrences n acc := by
  rcases p with ⟨m, s⟩
  unfold checklistStoreStep
  cases s.ty with
  | validations =>
    dsimp only
    unfold process_validations_store_for_checklist
    split
    · rfl
    · split <;> rfl
  | metric =>
    dsimp only
    unfold process_metrics_store_for_checklist
    split
    · rfl
    · split <;> rfl
  | otherStore => rfl

theorem docsSiteStep_store (acc : UpgradeChecklist × UpgradeLog)
    (m : String) (sb : StoreBackend) (n : String) :
    storeBucketOccurrences n (process_docs_site_for_checklist m sb acc) =
      storeBucketOccurrences n acc := by
  unfold process_docs_site_for_checklist
  split <;> rfl

theorem docsSiteStep_other (acc : UpgradeChecklist × UpgradeLog)
    (m : String) (sb : StoreBackend) (n : String) (hne : m ≠ n) :
    siteBucketOccurrences n (process_docs_site_for_checklist m sb acc) =
      siteBucketOccurrences n acc := by
  unfold process_docs_site_for_checklist
  split
  · simp [siteBucketOccurrences, countName_dictSet_other _ _ hne]
  · simp [siteBucketOccurrences, countName_append, countName, hne]

theorem docsSiteStep_self (acc : UpgradeChecklist × UpgradeLog)
    (n : String) (sb : StoreBackend)
    (h0 : siteBucketOccurrences n acc = 0) :
    siteBucketOccurrences n (process_docs_site_for_checklist n sb acc) = 1 := by
  have h1 : countName n acc.1.docs_validations_store_backends = 0 := by
    unfold siteBucketOccurrences at h0; omega
  unfold process_docs_site_for_checklist
  split
  · simp only [siteBucketOccurrences] at h0 ⊢
    rw [countName_dictSet_fresh n _ _ h1]
    omega
  · simp only [siteBucketOccurrences, countName_append_self] at h0 ⊢
    omega

theorem foldl_storeStep_untouched :
    ∀ (todo : List (String × RegisteredStore)) (acc : UpgradeChecklist × UpgradeLog) (n : String),
    (∀ p ∈ todo, p.1 ≠ n) →
    storeBucketOccurrences n (todo.foldl checklistStoreStep acc) = storeBucketOccurrences n acc
  | [], _, _, _ => rfl
  | p :: rest, acc, n, h => by
    rw [List.foldl_cons,
      foldl_storeStep_untouched rest _ n (fun q hq => h q (List.mem_cons_of_mem p hq))]
    exact checklistStoreStep_other acc p n (h p (List.mem_cons_self p rest))

theorem foldl_storeStep_site :
    ∀ (todo : List (String × RegisteredStore)) (acc : UpgradeChecklist × UpgradeLog) (n : String),
    siteBucketOccurrences n (todo.foldl checklistStoreStep acc) = siteBucketOccurrences n acc
  | [], _, _ => rfl
  | p :: rest, acc, n => by
    rw [List.foldl_cons, foldl_storeStep_site rest _ n]
    exact checklistStoreStep_site acc p n

theorem foldl_storeStep_mem :
    ∀ (todo : List (String × RegisteredStore)) (acc : UpgradeChecklist × UpgradeLog)
      (n : String) (s : RegisteredStore),
    (todo.map Prod.fst).Nodup →
    (∀ p ∈ todo, storeBucketOccurrences p.1 acc = 0) →
    (n, s) ∈ todo →
    storeBucketOccurrences n (todo.foldl checklistStoreStep acc) = storeDelta s
  | [], _, _, _, _, _, hmem => absurd hmem (List.not_mem_nil _)
  | ⟨m, s'⟩ :: rest, acc, n, s, hnd, h0, hmem => by
    rw [List.map_cons] at hnd
    have hnd' := List.nodup_cons.mp hnd
    rw [List.foldl_cons]
    rcases List.mem_cons.mp hmem with heq | hmem'
    · injection heq with h1 h2
      subst h1
      subst h2
      have hfresh : ∀ p ∈ rest, p.1 ≠ n := by
        intro p hp hc
        have hm := List.mem_map_of_mem Prod.fst hp
        rw [hc] at hm
        exact hnd'.1 hm
      rw [foldl_storeStep_untouched rest _ n hfresh]
      exact checklistStoreStep_self acc n s (h0 (n, s) (List.mem_cons_self _ _))
    · refine foldl_storeStep_mem rest _ n s hnd'.2 ?_ hmem'
      intro p hp
      have hmp : m ≠ p.1 := by
        intro hc
        have hm := List.mem_map_of_mem Prod.fst hp
        rw [← hc] at hm
        exact hnd'.1 hm
      rw [checklistStoreStep_other acc ⟨m, s'⟩ p.1 hmp]
      exact h0 p (List.mem_cons_of_mem _ hp)

theorem foldl_docsStep_store :
    ∀ (sites : List (String × StoreBackend)) (acc : UpgradeChecklist × UpgradeLog) (n : String),
    storeBucketOccurrences n
        (sites.foldl (fun acc entry => process_docs_site_for_checklist entry.1 entry.2 acc) acc) =
      storeBucketOccurrences n acc
  | [], _, _ => rfl
  | ⟨m, sb⟩ :: rest, acc, n => by
    rw [List.foldl_cons, foldl_docsStep_store rest _ n]
    exact docsSiteStep_store acc m sb n

theorem foldl_docsStep_untouched :
    ∀ (sites : List (String × StoreBackend)) (acc : UpgradeChecklist × UpgradeLog) (n : String),
    (∀ p ∈ sites, p.1 ≠ n) →
    siteBucketOccurrences n
        (sites.foldl (fun acc entry => process_docs_site_for_checklist entry.1 entry.2 acc) acc) =
      siteBucketOccurrences n acc
  | [], _, _, _ => rfl
  | ⟨m, sb⟩ :: rest, acc, n, h => by
    rw [List.foldl_cons,
      foldl_docsStep_untouched rest _ n (fun q hq => h q (List.mem_cons_of_mem _ hq))]
    exact docsSiteStep_other acc m sb n (h ⟨m, sb⟩ (List.mem_cons_self _ _))

theorem foldl_docsStep_mem :
    ∀ (sites : List (String × StoreBackend)) (acc : UpgradeChecklist × UpgradeLog)
      (n : String) (sb : StoreBackend),
    (sites.map Prod.fst).Nodup →
    (∀ p ∈ sites, siteBucketOccurrences p.1 acc = 0) →
    (n, sb) ∈ sites →
    siteBucketOccurrences n
        (sites.foldl (fun acc entry => process_docs_site_for_checklist entry.1 entry.2 acc) acc) = 1
  | [], _, _, _, _, _, hmem => absurd hmem (List.not_mem_nil _)
  | ⟨m, sb'⟩ :: rest, acc, n, sb, hnd, h0, hmem => by
    rw [List.map_cons] at hnd
    have hnd' := List.nodup_cons.mp hnd
    rw [List.foldl_cons]
    rcases List.mem_cons.mp hmem with heq | hmem'
    · injection heq with h1 h2
      subst h1
      subst h2
      have hfresh : ∀ p ∈ rest, p.1 ≠ n := by
        intro p hp hc
        have hm := List.mem_map_of_mem Prod.fst hp
        rw [hc] at hm
        exact hnd'.1 hm
      rw [foldl_docsStep_untouched rest _ n hfresh]
      exact docsSiteStep_self acc n sb (h0 (n, sb) (List.mem_cons_self _ _))
    · refine foldl_docsStep_mem rest _ n sb hnd'.2 ?_ hmem'
      intro p hp
      have hmp : m ≠ p.1 := by
        intro hc
        have hm := List.mem_map_of_mem Prod.fst hp
        rw [← hc] at hm
        exact hnd'.1 hm
      rw [docsSiteStep_other acc m sb' p.1 hmp]
      exact h0 p (List.mem_cons_of_mem _ hp)

/-- A metric store backed by the in-memory kind. -/
def beInMem : StoreBackend :=
  ⟨.inMemory, .ok [], fun _ => .ok sampleJson, fun _ _ => .ok (), fun _ => .ok (),
    fun _ _ => .ok (), testUrl, fun _ => .error "no provenance"⟩

/-- A registry holding exactly one store: an in-memory-backed metric
store. -/
def ctxC6 : Ctx := ⟨[("metric_inmem", ⟨.metric, beInMem⟩)], none, fun _ => .parserError⟩

/-- Claim C6 is false as stated: an in-memory-backed metric store in the
registry appears in none of the buckets after checklist construction
(`_process_metrics_store_for_checklist` silently passes over it), not in
exactly one. -/
theorem c6_counterexample :
    ("metric_inmem", (⟨.metric, beInMem⟩ : RegisteredStore)) ∈ ctxC6.stores ∧
    storeBucketOccurrences "metric_inmem" (generate_upgrade_checklist ctxC6) ≠ 1 := by
  constructor
  · exact List.mem_singleton.mpr rfl
  · decide

/-- Claim C6 (amended): after checklist construction, every validations
store in the registry and every metric store not backed by the in-memory
kind appears in exactly one of the buckets {checklist, skip-database,
skip-unsupported}; an in-memory-backed metric store and a store that is
neither a validations store nor a metric store appear in none
(`storeDelta` encodes exactly these counts); and every configured site
appears in exactly one of {site checklist, site skip-unsupported}. -/
theorem c6_amended_every_entry_bucketed (ctx : Ctx)
    (hs : (ctx.stores.map Prod.fst).Nodup) :
    (∀ n s, (n, s) ∈ ctx.stores →
      storeBucketOccurrences n (generate_upgrade_checklist ctx) = storeDelta s) ∧
    (∀ sites, ctx.data_docs_sites = some sites → (sites.map Prod.fst).Nodup →
      ∀ n sb, (n, sb) ∈ sites →
        siteBucketOccurrences n (generate_upgrade_checklist ctx) = 1) := by
  constructor
  · intro n s hmem
    unfold generate_upgrade_checklist
    have hbase := foldl_storeStep_mem ctx.stores (⟨[], []⟩, emptyUpgradeLog) n s hs
      (fun _ _ => rfl) hmem
    cases hsites : ctx.data_docs_sites with
    | none => exact hbase
    | some sites =>
      dsimp only
      rw [foldl_docsStep_store]
      exact hbase
  · intro sites hsites hnd n sb hmem
    unfold generate_upgrade_checklist
    rw [hsites]
    dsimp only
    refine foldl_docsStep_mem sites _ n sb hnd ?_ hmem
    intro p hp
    rw [foldl_storeStep_site]
    rfl

/-- Registry with one validations store, one in-memory metric store, and
one documentation site, exercising the amended claim. -/
def ctxC6w : Ctx :=
  ⟨[("vstore", ⟨.validations, beGood []⟩), ("metric_inmem", ⟨.metric, beInMem⟩)],
    some [("site_x", beGood [])], fun _ => .parserError⟩

theorem c6_witness :
    storeBucketOccurrences "vstore" (generate_upgrade_checklist ctxC6w) =
      storeDelta ⟨.validations, beGood []⟩ ∧
    storeBucketOccurrences "metric_inmem" (generate_upgrade_checklist ctxC6w) =
      storeDelta ⟨.metric, beInMem⟩ ∧
    siteBucketOccurrences "site_x" (generate_upgrade_checklist ctxC6w) = 1 := by
  have h := c6_amended_every_entry_bucketed ctxC6w (by decide)
  refine ⟨h.1 "vstore" _ (List.mem_cons_self _ _),
    h.1 "metric_inmem" _ (List.mem_cons_of_mem _ (List.mem_singleton.mpr rfl)),
    h.2 [("site_x", beGood [])] rfl (by decide) "site_x" _ (List.mem_singleton.mpr rfl)⟩

/-! ## Characterization of `_update_upgrade_log` (used by C7, C9, C10) -/

theorem dictModify_spec {α : Type} (k : String) (f : α → α) :
    ∀ (l : List (String × α)) (v : α), dictGet k l = some v →
    ∃ l', dictModify k f l = some l' ∧ dictGet k l' = some (f v) ∧
      (∀ m, m ≠ k → dictGet m l' = dictGet m l)
  | [], v, h => by simp [dictGet] at h
  | (k', w) :: rest, v, h => by
    by_cases hk : k' = k
    · subst hk
      obtain rfl : w = v := by simpa [dictGet] using h
      refine ⟨(k', f w) :: rest, by simp [dictModify], by simp [dictGet], ?_⟩
      intro m hm
      have hkm : ¬ k' = m := fun hh => hm (by rw [hh])
      simp [dictGet, hkm]
    · simp only [dictGet, if_neg hk] at h
      obtain ⟨l', h1, h2, h3⟩ := dictModify_spec k f rest v h
      refine ⟨(k', w) :: l', ?_, ?_, ?_⟩
      · simp [dictModify, if_neg hk, h1]
      · simp [dictGet, if_neg hk, h2]
      · intro m hm
        by_cases hk2 : k' = m
        · simp [dictGet, hk2]
        · simp [dictGet, hk2, h3 m hm]

theorem dictModify_isSome {α : Type} (k : String) (f : α → α) :
    ∀ (l l' : List (String × α)), dictModify k f l = some l' →
    ∀ p, (dictGet p l').isSome = (dictGet p l).isSome
  | [], _, h, _ => by simp [dictModify] at h
  | (k', w) :: rest, l', h, p => by
    by_cases hk : k' = k
    · simp only [dictModify, if_pos hk] at h
      subst hk
      cases h
      by_cases hp : k' = p <;> simp [dictGet, hp]
    · simp only [dictModify, if_neg hk] at h
      cases h2 : dictModify k f rest with
      | none => rw [h2] at h; cases h
      | some rest' =>
        rw [h2] at h
        cases h
        by_cases hp : k' = p
        · simp [dictGet, hp]
        · simp [dictGet, hp, dictModify_isSome k f rest rest' h2 p]

/-- `_update_upgrade_log` with an exception message, for a store whose
outcome record is present: appends exactly one exception entry carrying
the `"validation_store_name"` discriminator and the best-effort URLs, and
sets that store's `"exceptions"` flag. -/
theorem uul_store_exc (be : StoreBackend) (n : String) (sk dk : Option Key)
    (msg : String) (st : HelperState) (o : StoreOutcome)
    (hout : dictGet n st.log.upgraded_validations_stores = some o) :
    ∃ m', update_upgrade_log be (.store n) sk dk (some msg) st =
      ({ st with log := { st.log with
          exceptions := st.log.exceptions ++
            [⟨true, n, urlForOptKey be sk, urlForOptKey be dk, msg⟩],
          upgraded_validations_stores := m' } }, none) ∧
      dictGet n m' = some { o with exceptions := true } ∧
      (∀ p, p ≠ n → dictGet p m' = dictGet p st.log.upgraded_validations_stores) := by
  obtain ⟨l', h1, h2, h3⟩ := dictModify_spec n (fun o => { o with exceptions := true })
    st.log.upgraded_validations_stores o hout
  refine ⟨l', ?_, h2, h3⟩
  unfold update_upgrade_log
  dsimp only
  rw [h1]
  rfl

/-- `_update_upgrade_log` without an exception message, for a store whose
outcome record is present: appends exactly one `{"src", "dest"}` pair to
that store's `"validations_updated"` list and touches nothing else. -/
theorem uul_store_ok (be : StoreBackend) (n : String) (sk dk : Option Key)
    (st : HelperState) (o : StoreOutcome)
    (hout : dictGet n st.log.upgraded_validations_stores = some o) :
    ∃ m', update_upgrade_log be (.store n) sk dk none st =
      ({ st with log := { st.log with upgraded_validations_stores := m' } }, none) ∧
      dictGet n m' = some { o with updated :=
        o.updated ++ [(urlForOptKey be sk, urlForOptKey be dk)] } ∧
      (∀ p, p ≠ n → dictGet p m' = dictGet p st.log.upgraded_validations_stores) := by
  obtain ⟨l', h1, h2, h3⟩ := dictModify_spec n
    (fun o => { o with updated := o.updated ++ [(urlForOptKey be sk, urlForOptKey be dk)] })
    st.log.upgraded_validations_stores o hout
  refine ⟨l', ?_, h2, h3⟩
  unfold update_upgrade_log
  dsimp only
  rw [h1]

/-- `_update_upgrade_log` with an exception message, for a site whose
outcome record is present. -/
theorem uul_site_exc (be : StoreBackend) (n : String) (sk dk : Option Key)
    (msg : String) (st : HelperState) (o : StoreOutcome)
    (hout : dictGet n st.log.upgraded_docs_site_validations_stores = some o) :
    ∃ m', update_upgrade_log be (.site n) sk dk (some msg) st =
      ({ st with log := { st.log with
          exceptions := st.log.exceptions ++
            [⟨false, n, urlForOptKey be sk, urlForOptKey be dk, msg⟩],
          upgraded_docs_site_validations_stores := m' } }, none) ∧
      dictGet n m' = some { o with exceptions := true } ∧
      (∀ p, p ≠ n → dictGet p m' = dictGet p st.log.upgraded_docs_site_validations_stores) := by
  obtain ⟨l', h1, h2, h3⟩ := dictModify_spec n (fun o => { o with exceptions := true })
    st.log.upgraded_docs_site_validations_stores o hout
  refine ⟨l', ?_, h2, h3⟩
  unfold update_upgrade_log
  dsimp only
  rw [h1]
  rfl

/-- `_update_upgrade_log` without an exception message, for a site whose
outcome record is present. -/
theorem uul_site_ok (be : StoreBackend) (n : String) (sk dk : Option Key)
    (st : HelperState) (o : StoreOutcome)
    (hout : dictGet n st.log.upgraded_docs_site_validations_stores = some o) :
    ∃ m', update_upgrade_log be (.site n) sk dk none st =
      ({ st with log := { st.log with upgraded_docs_site_validations_stores := m' } }, none) ∧
      dictGet n m' = some { o with updated :=
        o.updated ++ [(urlForOptKey be sk, urlForOptKey be dk)] } ∧
      (∀ p, p ≠ n → dictGet p m' = dictGet p st.log.upgraded_docs_site_validations_stores) := by
  obtain ⟨l', h1, h2, h3⟩ := dictModify_spec n
    (fun o => { o with updated := o.updated ++ [(urlForOptKey be sk, urlForOptKey be dk)] })
    st.log.upgraded_docs_site_validations_stores o hout
  refine ⟨l', ?_, h2, h3⟩
  unfold update_upgrade_log
  dsimp only
  rw [h1]

/-! ## C7: only `ParserError` triggers the provenance fallback -/

/-- Claim C7: if the date parser raises anything other than a
`ParserError` on the run name, the run-time setter does not catch it —
the error escapes the resolver unchanged, the cache is left untouched and
the backend-provenance fallback is never consulted — and the Migration
Engine catches it per key: processing the key ends without propagation,
exactly one exception entry for this key carrying that parser error is
appended (followed by the fall-through entry of the transfer block), and
the backend provenance is not queried anywhere while the key is
processed. -/
theorem c7_non_parser_error_propagates_to_engine (parse : String → ParseOutcome)
    (be : StoreBackend) (n : String) (st : HelperState) (locals : LoopLocals)
    (init : List String) (runId tl m : String) (o : StoreOutcome)
    (hparse : parse runId = .otherError m)
    (hmiss : dictGet runId st.validation_run_times = none)
    (hmig : isMigratableKind be.kind = true)
    (hout : dictGet n st.log.upgraded_validations_stores = some o) :
    runTimeSetterCore parse be (init ++ [runId, tl]) st.validation_run_times =
      (st.validation_run_times, [], some m) ∧
    (processSourceKey parse be (.store n) (init ++ [runId, tl]) locals st).err = none ∧
    (∃ e2, (processSourceKey parse be (.store n) (init ++ [runId, tl]) locals st).st.log.exceptions =
      st.log.exceptions ++
        [⟨true, n, urlForOptKey be (some (init ++ [runId, tl])), "N/A", formatExceptionMessage m⟩, e2]) ∧
    Ev.provenanceCall runId ∉ (processSourceKey parse be (.store n) (init ++ [runId, tl]) locals st).evs := by
  have hsetter : runTimeSetterCore parse be (init ++ [runId, tl]) st.validation_run_times =
      (st.validation_run_times, [], some m) := by
    unfold runTimeSetterCore
    rw [secondToLast_append]
    dsimp only
    rw [hparse]
  have hdisp : dispatchRunTimeSetter parse be (init ++ [runId, tl]) st.validation_run_times =
      (st.validation_run_times, [], some m) := by
    unfold dispatchRunTimeSetter
    rw [if_pos hmig]
    exact hsetter
  have hb1 : tryComputeDestKey parse be (init ++ [runId, tl]) locals st.validation_run_times =
      ⟨⟨some runId, some none⟩, st.validation_run_times, [.resolveCall runId], some m⟩ := by
    unfold tryComputeDestKey
    rw [secondToLast_append]
    dsimp only
    rw [hmiss]
    dsimp only
    rw [hdisp]
  obtain ⟨m1, hu1, hu1n, hu1f⟩ := uul_store_exc be n (some (init ++ [runId, tl])) none
    (formatExceptionMessage m) st o hout
  have huvr : update_validation_result_json be (init ++ [runId, tl]) none (some runId)
      st.validation_run_times = (some "KeyError: run_name not in validation_run_times", []) := by
    unfold update_validation_result_json
    dsimp only
    rw [hmiss]
  obtain ⟨m2, hu2, hu2n, hu2f⟩ := uul_store_exc be n (some (init ++ [runId, tl])) none
    (formatExceptionMessage "KeyError: run_name not in validation_run_times")
    ({ st with log := { st.log with
        exceptions := st.log.exceptions ++
          [⟨true, n, urlForOptKey be (some (init ++ [runId, tl])), urlForOptKey be none,
            formatExceptionMessage m⟩],
        upgraded_validations_stores := m1 } })
    { o with exceptions := true } hu1n
  have hps : processSourceKey parse be (.store n) (init ++ [runId, tl]) locals st =
      ⟨({ st with log := { st.log with
          exceptions := st.log.exceptions ++
            [⟨true, n, urlForOptKey be (some (init ++ [runId, tl])), "N/A", formatExceptionMessage m⟩,
             ⟨true, n, urlForOptKey be (some (init ++ [runId, tl])), "N/A",
               formatExceptionMessage "KeyError: run_name not in validation_run_times"⟩],
          upgraded_validations_stores := m2 } }),
        ⟨some runId, some none⟩, [Ev.resolveCall runId], none⟩ := by
    unfold processSourceKey
    dsimp only
    rw [hb1]
    dsimp only
    unfold logBlock1Failure
    dsimp only
    rw [show ({ st with validation_run_times := st.validation_run_times } : HelperState) = st from rfl,
      hu1]
    dsimp only
    unfold runBlock2 transferStep
    dsimp only
    rw [huvr]
    dsimp only
    unfold logAfterTransfer
    dsimp only
    rw [hu2]
    dsimp only
    simp [List.append_assoc, urlForOptKey]
  rw [hps]
  refine ⟨hsetter, rfl, ⟨_, rfl⟩, by simp⟩

/-- Witness for C7: a parser raising a non-`ParserError` on `"badrun"`. -/
def parseC7 : String → ParseOutcome := fun _ => .otherError "OverflowError"

def beC7 : StoreBackend :=
  ⟨.tupleFilesystem, .ok [["v", "badrun", "x.json"]], fun _ => .ok sampleJson,
    fun _ _ => .ok (), fun _ => .ok (), fun _ _ => .ok (), testUrl, fun _ => .error "unused"⟩

def stC7 : HelperState :=
  ⟨{ emptyUpgradeLog with upgraded_validations_stores := [("vstore", ⟨[], false⟩)] }, []⟩

theorem c7_witness :
    runTimeSetterCore parseC7 beC7 (["v"] ++ ["badrun", "x.json"]) stC7.validation_run_times =
      (stC7.validation_run_times, [], some "OverflowError") ∧
    (processSourceKey parseC7 beC7 (.store "vstore") (["v"] ++ ["badrun", "x.json"]) ⟨none, none⟩ stC7).err = none ∧
    (∃ e2, (processSourceKey parseC7 beC7 (.store "vstore") (["v"] ++ ["badrun", "x.json"]) ⟨none, none⟩ stC7).st.log.exceptions =
      stC7.log.exceptions ++
        [⟨true, "vstore", urlForOptKey beC7 (some (["v"] ++ ["badrun", "x.json"])), "N/A",
          formatExceptionMessage "OverflowError"⟩, e2]) ∧
    Ev.provenanceCall "badrun" ∉ (processSourceKey parseC7 beC7 (.store "vstore") (["v"] ++ ["badrun", "x.json"]) ⟨none, none⟩ stC7).evs :=
  c7_non_parser_error_propagates_to_engine parseC7 beC7 "vstore" stC7 ⟨none, none⟩
    ["v"] "badrun" "x.json" "OverflowError" ⟨[], false⟩ rfl rfl rfl rfl

/-! ## C8: the content rewrite changes only `meta.run_id` and writes
before deleting -/

/-- The `new_run_id_dict` built at lines 309–312. -/
def new_run_id_dict (run_name run_time : String) : Json :=
  .obj [("run_name", .str run_name), ("run_time", .str run_time)]

/-- Claim C8: a successful primary-result-store transfer deserializes the
stored value, replaces exactly the `meta.run_id` field with the run name
and the cached run time, leaves every other top-level field and every
other field of `meta` unchanged (in order, since `dictSet` replaces in
place), and performs the backend operations in the order get — set
(destination) — remove (source): the value is written under the
destination key strictly before the source key is deleted, as the event
list shows. -/
theorem c8_rewrite_only_run_id_and_set_before_remove (be : StoreBackend)
    (src d : Key) (rn t : String) (cache : List (String × String))
    (fields mfields : List (String × Json))
    (hcache : dictGet rn cache = some t)
    (hget : be.get src = .ok (.obj fields))
    (hmeta : dictGet "meta" fields = some (.obj mfields))
    (hset : ∀ v, be.set d v = .ok ())
    (hrem : be.remove_key src = .ok ()) :
    update_validation_result_json be src (some d) (some rn) cache =
      (none,
       [.getOp src,
        .setOp d (.obj (dictSet "meta"
          (.obj (dictSet "run_id" (new_run_id_dict rn t) mfields)) fields)),
        .removeOp src]) ∧
    (∀ k, k ≠ "meta" →
      dictGet k (dictSet "meta" (.obj (dictSet "run_id" (new_run_id_dict rn t) mfields)) fields) =
        dictGet k fields) ∧
    dictGet "meta" (dictSet "meta" (.obj (dictSet "run_id" (new_run_id_dict rn t) mfields)) fields) =
      some (.obj (dictSet "run_id" (new_run_id_dict rn t) mfields)) ∧
    (∀ k, k ≠ "run_id" →
      dictGet k (dictSet "run_id" (new_run_id_dict rn t) mfields) = dictGet k mfields) ∧
    dictGet "run_id" (dictSet "run_id" (new_run_id_dict rn t) mfields) =
      some (new_run_id_dict rn t) := by
  have hsm : setMetaRunId (.obj fields) (new_run_id_dict rn t) =
      .ok (.obj (dictSet "meta" (.obj (dictSet "run_id" (new_run_id_dict rn t) mfields)) fields)) := by
    unfold setMetaRunId objGetItem objSetItem
    dsimp only
    rw [hmeta]
    rfl
  refine ⟨?_, ?_, ?_, ?_, ?_⟩
  · unfold update_validation_result_json
    dsimp only
    rw [hcache]
    dsimp only
    rw [hget]
    dsimp only
    rw [show (Json.obj [("run_name", Json.str rn), ("run_time", Json.str t)]) =
      new_run_id_dict rn t from rfl, hsm]
    dsimp only
    rw [hset, hrem]
  · intro k hk
    exact dictGet_dictSet_ne "meta" k _ (fun h => hk h.symm) fields
  · exact dictGet_dictSet_self ..
  · intro k hk
    exact dictGet_dictSet_ne "run_id" k _ (fun h => hk h.symm) mfields
  · exact dictGet_dictSet_self ..

def sampleMetaFields : List (String × Json) := [("run_id", .str "old"), ("batch", .str "b1")]

def sampleFields : List (String × Json) :=
  [("meta", .obj sampleMetaFields), ("results", .arr [])]

theorem c8_witness :
    update_validation_result_json (beGood []) ["v", "r", "a.json"] (some ["v", "r", "T", "a.json"])
        (some "r") [("r", "T")] =
      (none,
       [.getOp ["v", "r", "a.json"],
        .setOp ["v", "r", "T", "a.json"] (.obj (dictSet "meta"
          (.obj (dictSet "run_id" (new_run_id_dict "r" "T") sampleMetaFields)) sampleFields)),
        .removeOp ["v", "r", "a.json"]]) ∧
    (∀ k, k ≠ "meta" →
      dictGet k (dictSet "meta" (.obj (dictSet "run_id" (new_run_id_dict "r" "T") sampleMetaFields)) sampleFields) =
        dictGet k sampleFields) ∧
    dictGet "meta" (dictSet "meta" (.obj (dictSet "run_id" (new_run_id_dict "r" "T") sampleMetaFields)) sampleFields) =
      some (.obj (dictSet "run_id" (new_run_id_dict "r" "T") sampleMetaFields)) ∧
    (∀ k, k ≠ "run_id" →
      dictGet k (dictSet "run_id" (new_run_id_dict "r" "T") sampleMetaFields) = dictGet k sampleMetaFields) ∧
    dictGet "run_id" (dictSet "run_id" (new_run_id_dict "r" "T") sampleMetaFields) =
      some (new_run_id_dict "r" "T") :=
  c8_rewrite_only_run_id_and_set_before_remove (beGood []) ["v", "r", "a.json"]
    ["v", "r", "T", "a.json"] "r" "T" [("r", "T")] sampleFields sampleMetaFields
    rfl rfl rfl (fun _ => rfl) rfl

/-! ## Engine step effects (shared by C9 and C10) -/

/-- The flat exceptions list holds an entry with this discriminator
(`true` = `"validation_store_name"`, `false` = `"site_name"`) naming
`n`. -/
def HasExcFor (b : Bool) (n : String) (l : List ExcEntry) : Prop :=
  ∃ e ∈ l, e.is_store = b ∧ e.name = n

theorem hasExcFor_append_one (b : Bool) (n : String) (l : List ExcEntry) (e : ExcEntry) :
    HasExcFor b n (l ++ [e]) ↔ HasExcFor b n l ∨ (e.is_store = b ∧ e.name = n) := by
  constructor
  · rintro ⟨x, hx, hP⟩
    rcases List.mem_append.mp hx with h | h
    · exact Or.inl ⟨x, h, hP⟩
    · rw [List.mem_singleton.mp h] at hP
      exact Or.inr hP
  · rintro (⟨x, hx, hP⟩ | hP)
    · exact ⟨x, List.mem_append.mpr (Or.inl hx), hP⟩
    · exact ⟨e, List.mem_append.mpr (Or.inr (List.mem_singleton.mpr rfl)), hP⟩

theorem dictModify_none_get {α : Type} (k : String) (f : α → α) :
    ∀ l, dictModify k f l = none → dictGet k l = none
  | [], _ => rfl
  | (k', w) :: rest, h => by
    by_cases hk : k' = k
    · simp [dictModify, hk] at h
    · simp only [dictModify, if_neg hk] at h
      cases h2 : dictModify k f rest with
      | some rest' => rw [h2] at h; cases h
      | none =>
        simp only [dictGet, if_neg hk]
        exact dictModify_none_get k f rest h2

theorem dictModify_frame {α : Type} (k : String) (f : α → α) :
    ∀ l l', dictModify k f l = some l' →
    (∀ p, p ≠ k → dictGet p l' = dictGet p l) ∧
    (∀ o', dictGet k l' = some o' → ∃ o, dictGet k l = some o ∧ o' = f o)
  | [], _, h => by simp [dictModify] at h
  | (k', w) :: rest, l', h => by
    by_cases hk : k' = k
    · simp only [dictModify, if_pos hk] at h
      subst hk
      cases h
      constructor
      · intro p hp
        have hne : ¬ k' = p := fun hh => hp (by rw [hh])
        simp [dictGet, hne]
      · intro o' ho'
        have hww : some (f w) = some o' := by simpa [dictGet] using ho'
        exact ⟨w, by simp [dictGet], (Option.some_inj.mp hww).symm⟩
    · simp only [dictModify, if_neg hk] at h
      cases h2 : dictModify k f rest with
      | none => rw [h2] at h; cases h
      | some rest' =>
        rw [h2] at h
        cases h
        obtain ⟨hf, hs⟩ := dictModify_frame k f rest rest' h2
        constructor
        · intro p hp
          by_cases hkp : k' = p
          · simp [dictGet, hkp]
          · simp [dictGet, hkp, hf p hp]
        · intro o' ho'
          simp only [dictGet, if_neg hk] at ho' ⊢
          exact hs o' ho'

/-- The flag–entry correspondence maintained by the engine: for every
outcome record present in the log, its `"exceptions"` flag is set iff the
flat exceptions list holds an entry naming it with the matching
discriminator. -/
def LogInv (st : HelperState) : Prop :=
  (∀ n o, dictGet n st.log.upgraded_validations_stores = some o →
    (o.exceptions = true ↔ HasExcFor true n st.log.exceptions)) ∧
  (∀ n o, dictGet n st.log.upgraded_docs_site_validations_stores = some o →
    (o.exceptions = true ↔ HasExcFor false n st.log.exceptions))

/-- What one engine step may do to the log while processing `ident`:
append exception entries naming only `ident`, modify outcome values
without adding or removing outcome keys, and maintain `LogInv`. -/
structure StepEffect (ident : Identity) (st st' : HelperState) : Prop where
  exc_extend : ∃ new, st'.log.exceptions = st.log.exceptions ++ new ∧
    ∀ e ∈ new, e.is_store = ident.isStoreIdent ∧ e.name = ident.name
  val_keys : ∀ p, (dictGet p st'.log.upgraded_validations_stores).isSome =
    (dictGet p st.log.upgraded_validations_stores).isSome
  docs_keys : ∀ p, (dictGet p st'.log.upgraded_docs_site_validations_stores).isSome =
    (dictGet p st.log.upgraded_docs_site_validations_stores).isSome
  inv : LogInv st → LogInv st'

theorem stepEffect_refl (ident : Identity) (st : HelperState) : StepEffect ident st st :=
  ⟨⟨[], by simp, by simp⟩, fun _ => rfl, fun _ => rfl, id⟩

theorem stepEffect_trans {ident : Identity} {st1 st2 st3 : HelperState}
    (h1 : StepEffect ident st1 st2) (h2 : StepEffect ident st2 st3) :
    StepEffect ident st1 st3 := by
  obtain ⟨⟨n1, he1, hp1⟩, hv1, hd1, hi1⟩ := h1
  obtain ⟨⟨n2, he2, hp2⟩, hv2, hd2, hi2⟩ := h2
  refine ⟨⟨n1 ++ n2, ?_, ?_⟩, fun p => (hv2 p).trans (hv1 p), fun p => (hd2 p).trans (hd1 p),
    fun h => hi2 (hi1 h)⟩
  · rw [he2, he1, List.append_assoc]
  · intro e he
    rcases List.mem_append.mp he with h | h
    · exact hp1 e h
    · exact hp2 e h

theorem stepEffect_cache (ident : Identity) (st : HelperState) (c : List (String × String)) :
    StepEffect ident st { st with validation_run_times := c } :=
  ⟨⟨[], by simp, by simp⟩, fun _ => rfl, fun _ => rfl, id⟩

/-- `_update_upgrade_log` is a well-behaved engine step. -/
theorem uul_stepEffect (be : StoreBackend) (ident : Identity) (sk dk : Option Key)
    (msg : Option String) (st : HelperState) :
    StepEffect ident st (update_upgrade_log be ident sk dk msg st).1 := by
  unfold update_upgrade_log
  cases msg with
  | none =>
    cases ident with
    | store n =>
      dsimp only
      cases hdm : dictModify n
          (fun o => { o with updated := o.updated ++ [(urlForOptKey be sk, urlForOptKey be dk)] })
          st.log.upgraded_validations_stores with
      | none => exact stepEffect_refl ..
      | some l' =>
        obtain ⟨hframe, hself⟩ := dictModify_frame n _ st.log.upgraded_validations_stores l' hdm
        refine ⟨⟨[], by simp, by simp⟩, dictModify_isSome n _ _ l' hdm, fun p => rfl, ?_⟩
        intro hinv
        constructor
        · intro p o' hp
          by_cases hpn : p = n
          · subst hpn
            obtain ⟨o0, ho0, rfl⟩ := hself o' hp
            exact hinv.1 p o0 ho0
          · rw [hframe p hpn] at hp
            exact hinv.1 p o' hp
        · exact hinv.2
    | site n =>
      dsimp only
      cases hdm : dictModify n
          (fun o => { o with updated := o.updated ++ [(urlForOptKey be sk, urlForOptKey be dk)] })
          st.log.upgraded_docs_site_validations_stores with
      | none => exact stepEffect_refl ..
      | some l' =>
        obtain ⟨hframe, hself⟩ := dictModify_frame n _ st.log.upgraded_docs_site_validations_stores l' hdm
        refine ⟨⟨[], by simp, by simp⟩, fun p => rfl, dictModify_isSome n _ _ l' hdm, ?_⟩
        intro hinv
        constructor
        · exact hinv.1
        · intro p o' hp
          by_cases hpn : p = n
          · subst hpn
            obtain ⟨o0, ho0, rfl⟩ := hself o' hp
            exact hinv.2 p o0 ho0
          · rw [hframe p hpn] at hp
            exact hinv.2 p o' hp
  | some m =>
    cases ident with
    | store n =>
      dsimp only
      cases hdm : dictModify n (fun o => { o with exceptions := true })
          st.log.upgraded_validations_stores with
      | none =>
        refine ⟨⟨[⟨true, n, urlForOptKey be sk, urlForOptKey be dk, m⟩], rfl, ?_⟩,
          fun p => rfl, fun p => rfl, ?_⟩
        · intro e he
          rw [List.mem_singleton.mp he]
          exact ⟨rfl, rfl⟩
        · intro hinv
          have hnone := dictModify_none_get n _ st.log.upgraded_validations_stores hdm
          constructor
          · intro p o hp
            have hpn : p ≠ n := by
              intro h
              rw [h, hnone] at hp
              cases hp
            rw [hasExcFor_append_one]
            have base := hinv.1 p o hp
            constructor
            · intro hflag
              exact Or.inl (base.mp hflag)
            · rintro (h | ⟨hb, hn⟩)
              · exact base.mpr h
              · exact absurd hn.symm hpn
          · intro p o hp
            rw [hasExcFor_append_one]
            have base := hinv.2 p o hp
            constructor
            · intro hflag
              exact Or.inl (base.mp hflag)
            · rintro (h | ⟨hb, hn⟩)
              · exact base.mpr h
              · cases hb
      | some l' =>
        obtain ⟨hframe, hself⟩ := dictModify_frame n _ st.log.upgraded_validations_stores l' hdm
        refine ⟨⟨[⟨true, n, urlForOptKey be sk, urlForOptKey be dk, m⟩], rfl, ?_⟩,
          dictModify_isSome n _ _ l' hdm, fun p => rfl, ?_⟩
        · intro e he
          rw [List.mem_singleton.mp he]
          exact ⟨rfl, rfl⟩
        · intro hinv
          constructor
          · intro p o' hp
            by_cases hpn : p = n
            · subst hpn
              obtain ⟨o0, ho0, rfl⟩ := hself o' hp
              rw [hasExcFor_append_one]
              exact ⟨fun _ => Or.inr ⟨rfl, rfl⟩, fun _ => rfl⟩
            · rw [hframe p hpn] at hp
              rw [hasExcFor_append_one]
              have base := hinv.1 p o' hp
              constructor
              · intro hflag
                exact Or.inl (base.mp hflag)
              · rintro (h | ⟨hb, hn⟩)
                · exact base.mpr h
                · exact absurd hn.symm hpn
          · intro p o hp
            rw [hasExcFor_append_one]
            have base := hinv.2 p o hp
            constructor
            · intro hflag
              exact Or.inl (base.mp hflag)
            · rintro (h | ⟨hb, hn⟩)
              · exact base.mpr h
              · cases hb
    | site n =>
      dsimp only
      cases hdm : dictModify n (fun o => { o with exceptions := true })
          st.log.upgraded_docs_site_validations_stores with
      | none =>
        refine ⟨⟨[⟨false, n, urlForOptKey be sk, urlForOptKey be dk, m⟩], rfl, ?_⟩,
          fun p => rfl, fun p => rfl, ?_⟩
        · intro e he
          rw [List.mem_singleton.mp he]
          exact ⟨rfl, rfl⟩
        · intro hinv
          have hnone := dictModify_none_get n _ st.log.upgraded_docs_site_validations_stores hdm
          constructor
          · intro p o hp
            rw [hasExcFor_append_one]
            have base := hinv.1 p o hp
            constructor
            · intro hflag
              exact Or.inl (base.mp hflag)
            · rintro (h | ⟨hb, hn⟩)
              · exact base.mpr h
              · cases hb
          · intro p o hp
            have hpn : p ≠ n := by
              intro h
              rw [h, hnone] at hp
              cases hp
            rw [hasExcFor_append_one]
            have base := hinv.2 p o hp
            constructor
            · intro hflag
              exact Or.inl (base.mp hflag)
            · rintro (h | ⟨hb, hn⟩)
              · exact base.mpr h
              · exact absurd hn.symm hpn
      | some l' =>
        obtain ⟨hframe, hself⟩ := dictModify_frame n _ st.log.upgraded_docs_site_validations_stores l' hdm
        refine ⟨⟨[⟨false, n, urlForOptKey be sk, urlForOptKey be dk, m⟩], rfl, ?_⟩,
          fun p => rfl, dictModify_isSome n _ _ l' hdm, ?_⟩
        · intro e he
          rw [List.mem_singleton.mp he]
          exact ⟨rfl, rfl⟩
        · intro hinv
          constructor
          · intro p o hp
            rw [hasExcFor_append_one]
            have base := hinv.1 p o hp
            constructor
            · intro hflag
              exact Or.inl (base.mp hflag)
            · rintro (h | ⟨hb, hn⟩)
              · exact base.mpr h
              · cases hb
          · intro p o' hp
            by_cases hpn : p = n
            · subst hpn
              obtain ⟨o0, ho0, rfl⟩ := hself o' hp
              rw [hasExcFor_append_one]
              exact ⟨fun _ => Or.inr ⟨rfl, rfl⟩, fun _ => rfl⟩
            · rw [hframe p hpn] at hp
              rw [hasExcFor_append_one]
              have base := hinv.2 p o' hp
              constructor
              · intro hflag
                exact Or.inl (base.mp hflag)
              · rintro (h | ⟨hb, hn⟩)
                · exact base.mpr h
                · exact absurd hn.symm hpn

theorem logBlock1Failure_stepEffect (be : StoreBackend) (ident : Identity) (k : Key)
    (locals1 : LoopLocals) (e : Err) (st : HelperState) :
    StepEffect ident st (logBlock1Failure be ident k locals1 e st).1 := by
  unfold logBlock1Failure
  cases locals1.dest_key with
  | none => exact stepEffect_refl ..
  | some dk => exact uul_stepEffect ..

theorem logAfterTransfer_stepEffect (be : StoreBackend) (ident : Identity) (k : Key)
    (dk : Option Key) (terr : Option Err) (st : HelperState) :
    StepEffect ident st (logAfterTransfer be ident k dk terr st).1 := by
  unfold logAfterTransfer
  cases terr with
  | some e => exact uul_stepEffect ..
  | none =>
    rcases hu : update_upgrade_log be ident (some k) dk none st with ⟨st1, e1⟩
    have h1 : StepEffect ident st st1 := by
      have h := uul_stepEffect be ident (some k) dk none st
      rw [hu] at h
      exact h
    cases e1 with
    | none => exact h1
    | some e =>
      dsimp only
      exact stepEffect_trans h1 (uul_stepEffect ..)

theorem runBlock2_stepEffect (be : StoreBackend) (ident : Identity) (k : Key)
    (locals : LoopLocals) (st : HelperState) (evs0 : List Ev) :
    StepEffect ident st (runBlock2 be ident k locals st evs0).st := by
  unfold runBlock2
  cases locals.dest_key with
  | none => exact stepEffect_refl ..
  | some dk => exact logAfterTransfer_stepEffect ..

theorem processSourceKey_stepEffect (parse : String → ParseOutcome) (be : StoreBackend)
    (ident : Identity) (k : Key) (locals : LoopLocals) (st : HelperState) :
    StepEffect ident st (processSourceKey parse be ident k locals st).st := by
  unfold processSourceKey
  dsimp only
  have hc := stepEffect_cache ident st (tryComputeDestKey parse be k locals st.validation_run_times).cache
  cases hexc : (tryComputeDestKey parse be k locals st.validation_run_times).exc with
  | none => exact stepEffect_trans hc (runBlock2_stepEffect ..)
  | some e =>
    dsimp only
    have h1 := logBlock1Failure_stepEffect be ident k
      (tryComputeDestKey parse be k locals st.validation_run_times).locals e
      { st with validation_run_times := (tryComputeDestKey parse be k locals st.validation_run_times).cache }
    cases he2 : (logBlock1Failure be ident k
        (tryComputeDestKey parse be k locals st.validation_run_times).locals e
        { st with validation_run_times := (tryComputeDestKey parse be k locals st.validation_run_times).cache }).2 with
    | some e2 => exact stepEffect_trans hc h1
    | none => exact stepEffect_trans hc (stepEffect_trans h1 (runBlock2_stepEffect ..))

theorem processKeys_stepEffect (parse : String → ParseOutcome) (be : StoreBackend)
    (ident : Identity) : ∀ (ks : List Key) (locals : LoopLocals) (st : HelperState),
    StepEffect ident st (processKeys parse be ident ks locals st).st
  | [], _, st => stepEffect_refl ident st
  | k :: ks, locals, st => by
    unfold processKeys
    dsimp only
    have hb := processSourceKey_stepEffect parse be ident k locals st
    cases herr : (processSourceKey parse be ident k locals st).err with
    | some e => exact hb
    | none =>
      exact stepEffect_trans hb (processKeys_stepEffect parse be ident ks
        (processSourceKey parse be ident k locals st).locals
        (processSourceKey parse be ident k locals st).st)

theorem upgrade_store_backend_stepEffect (parse : String → ParseOutcome) (be : StoreBackend)
    (ident : Identity) (st : HelperState) :
    StepEffect ident st (upgrade_store_backend parse be ident st).st := by
  unfold upgrade_store_backend
  cases hl : be.list_keys with
  | ok ks => exact processKeys_stepEffect parse be ident ks ⟨none, none⟩ st
  | error e =>
    dsimp only
    rcases hu : update_upgrade_log be ident none none (some (formatExceptionMessage e)) st with ⟨st1, e1⟩
    have h1 : StepEffect ident st st1 := by
      have h := uul_stepEffect be ident none none (some (formatExceptionMessage e)) st
      rw [hu] at h
      exact h
    cases e1 with
    | some e2 => exact h1
    | none => exact h1

/-! ## Error-free processing of well-formed keys (used by C9) -/

/-- The outcome map addressed by the processed identity. -/
def identOutcomes (ident : Identity) (st : HelperState) : List (String × StoreOutcome) :=
  match ident with
  | .store _ => st.log.upgraded_validations_stores
  | .site _ => st.log.upgraded_docs_site_validations_stores

theorem stepEffect_keeps {ident : Identity} {st st' : HelperState}
    (h : StepEffect ident st st') (p : String) :
    (dictGet p (identOutcomes ident st')).isSome = (dictGet p (identOutcomes ident st)).isSome := by
  cases ident with
  | store n => exact h.val_keys p
  | site n => exact h.docs_keys p

theorem secondToLast_isSome : ∀ (l : List String), 2 ≤ l.length → ∃ a, secondToLast l = some a
  | [], h => absurd h (by simp)
  | [_], h => absurd h (by simp)
  | [a, _], _ => ⟨a, rfl⟩
  | _ :: b :: c :: rest, _ =>
    secondToLast_isSome (b :: c :: rest) (by simp [Nat.le_add_left])

theorem tryComputeDestKey_dk_isSome (parse : String → ParseOutcome) (be : StoreBackend)
    (k : Key) (locals : LoopLocals) (cache : List (String × String)) (h : 2 ≤ k.length) :
    ∃ dk, (tryComputeDestKey parse be k locals cache).locals.dest_key = some dk := by
  obtain ⟨a, ha⟩ := secondToLast_isSome k h
  unfold tryComputeDestKey
  rw [ha]
  dsimp only
  cases dictGet a cache with
  | some t => exact ⟨some (pyInsertNeg1 t k), rfl⟩
  | none =>
    rcases dispatchRunTimeSetter parse be k cache with ⟨c2, sevs, err⟩
    cases err with
    | some e => exact ⟨none, rfl⟩
    | none =>
      dsimp only
      cases dictGet a c2 with
      | some t => exact ⟨some (pyInsertNeg1 t k), rfl⟩
      | none => exact ⟨none, rfl⟩

theorem uul_err_none (be : StoreBackend) (ident : Identity) (sk dk : Option Key)
    (msg : Option String) (st : HelperState)
    (h : (dictGet ident.name (identOutcomes ident st)).isSome = true) :
    (update_upgrade_log be ident sk dk msg st).2 = none := by
  obtain ⟨o, ho⟩ := Option.isSome_iff_exists.mp h
  cases ident with
  | store n =>
    cases msg with
    | none =>
      obtain ⟨m', heq, -, -⟩ := uul_store_ok be n sk dk st o ho
      rw [heq]
    | some m =>
      obtain ⟨m', heq, -, -⟩ := uul_store_exc be n sk dk m st o ho
      rw [heq]
  | site n =>
    cases msg with
    | none =>
      obtain ⟨m', heq, -, -⟩ := uul_site_ok be n sk dk st o ho
      rw [heq]
    | some m =>
      obtain ⟨m', heq, -, -⟩ := uul_site_exc be n sk dk m st o ho
      rw [heq]

theorem logAfterTransfer_err_none (be : StoreBackend) (ident : Identity) (k : Key)
    (dk : Option Key) (terr : Option Err) (st : HelperState)
    (h : (dictGet ident.name (identOutcomes ident st)).isSome = true) :
    (logAfterTransfer be ident k dk terr st).2 = none := by
  unfold logAfterTransfer
  cases terr with
  | some e => exact uul_err_none be ident (some k) dk _ st h
  | none =>
    rcases hu : update_upgrade_log be ident (some k) dk none st with ⟨st1, e1⟩
    have he1 : e1 = none := by
      have h2 := uul_err_none be ident (some k) dk none st h
      rw [hu] at h2
      exact h2
    subst he1
    rfl

theorem logBlock1Failure_err_none (be : StoreBackend) (ident : Identity) (k : Key)
    (locals1 : LoopLocals) (e : Err) (st : HelperState)
    (hdk : locals1.dest_key ≠ none)
    (h : (dictGet ident.name (identOutcomes ident st)).isSome = true) :
    (logBlock1Failure be ident k locals1 e st).2 = none := by
  unfold logBlock1Failure
  cases hd : locals1.dest_key with
  | none => exact absurd hd hdk
  | some dk => exact uul_err_none be ident (some k) dk _ st h

theorem runBlock2_err_none (be : StoreBackend) (ident : Identity) (k : Key)
    (locals : LoopLocals) (st : HelperState) (evs0 : List Ev)
    (hdk : locals.dest_key ≠ none)
    (h : (dictGet ident.name (identOutcomes ident st)).isSome = true) :
    (runBlock2 be ident k locals st evs0).err = none := by
  unfold runBlock2
  cases hd : locals.dest_key with
  | none => exact absurd hd hdk
  | some dk => exact logAfterTransfer_err_none be ident k dk _ st h

/-- A key with at least two segments is processed without the body
propagating an exception, provided the identity's outcome record is
present (as `upgrade_project` guarantees). -/
theorem processSourceKey_err_none (parse : String → ParseOutcome) (be : StoreBackend)
    (ident : Identity) (k : Key) (locals : LoopLocals) (st : HelperState)
    (hwf : 2 ≤ k.length)
    (h : (dictGet ident.name (identOutcomes ident st)).isSome = true) :
    (processSourceKey parse be ident k locals st).err = none := by
  unfold processSourceKey
  dsimp only
  obtain ⟨dk, hdk⟩ := tryComputeDestKey_dk_isSome parse be k locals st.validation_run_times hwf
  have h1 : (dictGet ident.name (identOutcomes ident
      { st with validation_run_times := (tryComputeDestKey parse be k locals st.validation_run_times).cache })).isSome = true := by
    cases ident with
    | store n => exact h
    | site n => exact h
  cases hexc : (tryComputeDestKey parse be k locals st.validation_run_times).exc with
  | none =>
    exact runBlock2_err_none be ident k _ _ _ (by rw [hdk]; exact fun hc => Option.noConfusion hc) h1
  | some e =>
    dsimp only
    have hr12 : (logBlock1Failure be ident k
        (tryComputeDestKey parse be k locals st.validation_run_times).locals e
        { st with validation_run_times := (tryComputeDestKey parse be k locals st.validation_run_times).cache }).2 = none :=
      logBlock1Failure_err_none be ident k _ e _ (by rw [hdk]; exact fun hc => Option.noConfusion hc) h1
    rw [hr12]
    have hse := logBlock1Failure_stepEffect be ident k
      (tryComputeDestKey parse be k locals st.validation_run_times).locals e
      { st with validation_run_times := (tryComputeDestKey parse be k locals st.validation_run_times).cache }
    refine runBlock2_err_none be ident k _ _ _ (by rw [hdk]; exact fun hc => Option.noConfusion hc) ?_
    rw [stepEffect_keeps hse]
    exact h1

theorem processKeys_err_none (parse : String → ParseOutcome) (be : StoreBackend)
    (ident : Identity) : ∀ (ks : List Key) (locals : LoopLocals) (st : HelperState),
    (∀ k ∈ ks, 2 ≤ k.length) →
    (dictGet ident.name (identOutcomes ident st)).isSome = true →
    (processKeys parse be ident ks locals st).err = none
  | [], _, _, _, _ => rfl
  | k :: ks, locals, st, hwf, h => by
    unfold processKeys
    dsimp only
    have hb := processSourceKey_err_none parse be ident k locals st
      (hwf k (List.mem_cons_self _ _)) h
    rw [hb]
    have hse := processSourceKey_stepEffect parse be ident k locals st
    exact processKeys_err_none parse be ident ks _ _
      (fun k' hk' => hwf k' (List.mem_cons_of_mem _ hk'))
      (by rw [stepEffect_keeps hse]; exact h)

/-- A backend that lists successfully and returns only well-formed keys. -/
def GoodBackend (be : StoreBackend) : Prop :=
  ∃ ks, be.list_keys = .ok ks ∧ ∀ k ∈ ks, 2 ≤ k.length

theorem upgrade_store_backend_err_none (parse : String → ParseOutcome) (be : StoreBackend)
    (ident : Identity) (st : HelperState)
    (hgood : GoodBackend be)
    (h : (dictGet ident.name (identOutcomes ident st)).isSome = true) :
    (upgrade_store_backend parse be ident st).err = none := by
  obtain ⟨ks, hks, hwf⟩ := hgood
  unfold upgrade_store_backend
  rw [hks]
  exact processKeys_err_none parse be ident ks ⟨none, none⟩ st hwf h

/-! ## C9: the two passes are isolated from each other -/

theorem dictGet_dictSet_isSome_mono {α : Type} (m p : String) (v : α)
    (l : List (String × α)) (h : (dictGet p l).isSome = true) :
    (dictGet p (dictSet m v l)).isSome = true := by
  by_cases hpm : m = p
  · subst hpm
    rw [dictGet_dictSet_self]
    rfl
  · rw [dictGet_dictSet_ne m p v hpm]
    exact h

theorem runSitesPass_docs_mono (parse : String → ParseOutcome) :
    ∀ (todo : List (String × StoreBackend)) (st : HelperState) (p : String),
    (dictGet p st.log.upgraded_docs_site_validations_stores).isSome = true →
    (dictGet p (runSitesPass parse todo st).st.log.upgraded_docs_site_validations_stores).isSome = true
  | [], _, _, h => h
  | (n, be) :: rest, st, p, h => by
    unfold runSitesPass
    dsimp only
    have h1 : (dictGet p (initSiteOutcome n st).log.upgraded_docs_site_validations_stores).isSome = true :=
      dictGet_dictSet_isSome_mono n p _ _ h
    have hse := upgrade_store_backend_stepEffect parse be (.site n) (initSiteOutcome n st)
    have h2 : (dictGet p (upgrade_store_backend parse be (.site n)
        (initSiteOutcome n st)).st.log.upgraded_docs_site_validations_stores).isSome = true := by
      rw [hse.docs_keys p]
      exact h1
    cases herr : (upgrade_store_backend parse be (.site n) (initSiteOutcome n st)).err with
    | some e => exact h2
    | none => exact runSitesPass_docs_mono parse rest _ p h2

theorem runStoresPass_vals_mono (parse : String → ParseOutcome) :
    ∀ (todo : List (String × StoreBackend)) (st : HelperState) (p : String),
    (dictGet p st.log.upgraded_validations_stores).isSome = true →
    (dictGet p (runStoresPass parse todo st).st.log.upgraded_validations_stores).isSome = true
  | [], _, _, h => h
  | (n, be) :: rest, st, p, h => by
    unfold runStoresPass
    dsimp only
    have h1 : (dictGet p (initStoreOutcome n st).log.upgraded_validations_stores).isSome = true :=
      dictGet_dictSet_isSome_mono n p _ _ h
    have hse := upgrade_store_backend_stepEffect parse be (.store n) (initStoreOutcome n st)
    have h2 : (dictGet p (upgrade_store_backend parse be (.store n)
        (initStoreOutcome n st)).st.log.upgraded_validations_stores).isSome = true := by
      rw [hse.val_keys p]
      exact h1
    cases herr : (upgrade_store_backend parse be (.store n) (initStoreOutcome n st)).err with
    | some e => exact h2
    | none => exact runStoresPass_vals_mono parse rest _ p h2

/-- The sites pass never adds or removes store outcome records. -/
theorem runSitesPass_val_keys (parse : String → ParseOutcome) :
    ∀ (todo : List (String × StoreBackend)) (st : HelperState) (p : String),
    (dictGet p (runSitesPass parse todo st).st.log.upgraded_validations_stores).isSome =
      (dictGet p st.log.upgraded_validations_stores).isSome
  | [], _, _ => rfl
  | (n, be) :: rest, st, p => by
    unfold runSitesPass
    dsimp only
    have hse := upgrade_store_backend_stepEffect parse be (.site n) (initSiteOutcome n st)
    cases herr : (upgrade_store_backend parse be (.site n) (initSiteOutcome n st)).err with
    | some e => exact hse.val_keys p
    | none => exact (runSitesPass_val_keys parse rest _ p).trans (hse.val_keys p)

/-- The stores pass never adds or removes site outcome records. -/
theorem runStoresPass_docs_keys (parse : String → ParseOutcome) :
    ∀ (todo : List (String × StoreBackend)) (st : HelperState) (p : String),
    (dictGet p (runStoresPass parse todo st).st.log.upgraded_docs_site_validations_stores).isSome =
      (dictGet p st.log.upgraded_docs_site_validations_stores).isSome
  | [], _, _ => rfl
  | (n, be) :: rest, st, p => by
    unfold runStoresPass
    dsimp only
    have hse := upgrade_store_backend_stepEffect parse be (.store n) (initStoreOutcome n st)
    cases herr : (upgrade_store_backend parse be (.store n) (initStoreOutcome n st)).err with
    | some e => exact hse.docs_keys p
    | none => exact (runStoresPass_docs_keys parse rest _ p).trans (hse.docs_keys p)

/-- Every site of a good-backend checklist gets its outcome record,
whatever the state left behind by the stores pass. -/
theorem runSitesPass_good_present (parse : String → ParseOutcome) :
    ∀ (todo : List (String × StoreBackend)) (st : HelperState),
    (∀ q ∈ todo, GoodBackend q.2) →
    ∀ q ∈ todo,
      (dictGet q.1 (runSitesPass parse todo st).st.log.upgraded_docs_site_validations_stores).isSome = true
  | [], _, _, q, hq => absurd hq (List.not_mem_nil _)
  | (n, be) :: rest, st, hgood, q, hq => by
    unfold runSitesPass
    dsimp only
    have hinit : (dictGet n (initSiteOutcome n st).log.upgraded_docs_site_validations_stores).isSome = true := by
      show (dictGet n (dictSet n ⟨[], false⟩ st.log.upgraded_docs_site_validations_stores)).isSome = true
      rw [dictGet_dictSet_self]
      rfl
    have herr0 : (upgrade_store_backend parse be (.site n) (initSiteOutcome n st)).err = none :=
      upgrade_store_backend_err_none parse be (.site n) _
        (hgood (n, be) (List.mem_cons_self _ _)) hinit
    rw [herr0]
    dsimp only
    have hse := upgrade_store_backend_stepEffect parse be (.site n) (initSiteOutcome n st)
    have hnpres : (dictGet n (upgrade_store_backend parse be (.site n)
        (initSiteOutcome n st)).st.log.upgraded_docs_site_validations_stores).isSome = true := by
      rw [hse.docs_keys n]
      exact hinit
    rcases List.mem_cons.mp hq with heq | hq'
    · subst heq
      exact runSitesPass_docs_mono parse rest _ n hnpres
    · exact runSitesPass_good_present parse rest _
        (fun z hz => hgood z (List.mem_cons_of_mem _ hz)) q hq'

/-- Every store of a good-backend checklist gets its outcome record. -/
theorem runStoresPass_good_present (parse : String → ParseOutcome) :
    ∀ (todo : List (String × StoreBackend)) (st : HelperState),
    (∀ q ∈ todo, GoodBackend q.2) →
    ∀ q ∈ todo,
      (dictGet q.1 (runStoresPass parse todo st).st.log.upgraded_validations_stores).isSome = true
  | [], _, _, q, hq => absurd hq (List.not_mem_nil _)
  | (n, be) :: rest, st, hgood, q, hq => by
    unfold runStoresPass
    dsimp only
    have hinit : (dictGet n (initStoreOutcome n st).log.upgraded_validations_stores).isSome = true := by
      show (dictGet n (dictSet n ⟨[], false⟩ st.log.upgraded_validations_stores)).isSome = true
      rw [dictGet_dictSet_self]
      rfl
    have herr0 : (upgrade_store_backend parse be (.store n) (initStoreOutcome n st)).err = none :=
      upgrade_store_backend_err_none parse be (.store n) _
        (hgood (n, be) (List.mem_cons_self _ _)) hinit
    rw [herr0]
    dsimp only
    have hse := upgrade_store_backend_stepEffect parse be (.store n) (initStoreOutcome n st)
    have hnpres : (dictGet n (upgrade_store_backend parse be (.store n)
        (initStoreOutcome n st)).st.log.upgraded_validations_stores).isSome = true := by
      rw [hse.val_keys n]
      exact hinit
    rcases List.mem_cons.mp hq with heq | hq'
    · subst heq
      exact runStoresPass_vals_mono parse rest _ n hnpres
    · exact runStoresPass_good_present parse rest _
        (fun z hz => hgood z (List.mem_cons_of_mem _ hz)) q hq'

/-- Claim C9: the two passes of `upgrade_project` are wrapped in
independent broad `except` blocks, so (first conjunct) whatever the
validations-store backends do — including listing failures that abort the
whole stores pass — every documentation site whose backend lists
well-formed keys still receives an outcome record in the returned log,
and (second conjunct) whatever the site backends do, every validations
store with a good backend keeps its outcome record in the returned log;
`upgrade_project` itself is a total function that always returns the
log. -/
theorem c9_store_and_site_passes_isolated (ctx : Ctx) :
    ((∀ q ∈ (generate_upgrade_checklist ctx).1.docs_validations_store_backends, GoodBackend q.2) →
      ∀ q ∈ (generate_upgrade_checklist ctx).1.docs_validations_store_backends,
        ∃ o, dictGet q.1 (upgrade_project ctx).upgraded_docs_site_validations_stores = some o) ∧
    ((∀ q ∈ (generate_upgrade_checklist ctx).1.validations_store_backends, GoodBackend q.2) →
      ∀ q ∈ (generate_upgrade_checklist ctx).1.validations_store_backends,
        ∃ o, dictGet q.1 (upgrade_project ctx).upgraded_validations_stores = some o) := by
  unfold upgrade_project upgradeProjectFull
  dsimp only
  constructor
  · intro hgood q hq
    exact Option.isSome_iff_exists.mp
      (runSitesPass_good_present ctx.parse _ _ hgood q hq)
  · intro hgood q hq
    have h1 := runStoresPass_good_present ctx.parse _
      ⟨(generate_upgrade_checklist ctx).2, []⟩ hgood q hq
    have h2 := runSitesPass_val_keys ctx.parse
      (generate_upgrade_checklist ctx).1.docs_validations_store_backends
      (runStoresPass ctx.parse (generate_upgrade_checklist ctx).1.validations_store_backends
        ⟨(generate_upgrade_checklist ctx).2, []⟩).st q.1
    rw [h1] at h2
    exact Option.isSome_iff_exists.mp h2

/-- A session whose single store's `list_keys` raises (aborting the whole
stores pass) and whose single site is healthy. -/
def ctxC9 : Ctx :=
  ⟨[("store_a", ⟨.validations, beListErr⟩)],
    some [("site_x", beGood [["v", "run1", "p.html"]])], parseAllOk⟩

theorem c9_witness :
    ∃ o, dictGet "site_x" (upgrade_project ctxC9).upgraded_docs_site_validations_stores = some o := by
  refine (c9_store_and_site_passes_isolated ctxC9).1 ?_
    ("site_x", beGood [["v", "run1", "p.html"]]) (List.mem_singleton.mpr rfl)
  intro q hq
  have hq1 : q = ("site_x", beGood [["v", "run1", "p.html"]]) := List.mem_singleton.mp hq
  subst hq1
  exact ⟨[["v", "run1", "p.html"]], rfl, by decide⟩

/-! ## C10: outcome initialization and the exceptions-flag correspondence -/

theorem checklistStoreStep_log_fields (acc : UpgradeChecklist × UpgradeLog)
    (p : String × RegisteredStore) :
    (checklistStoreStep acc p).2.exceptions = acc.2.exceptions ∧
    (checklistStoreStep acc p).2.upgraded_validations_stores = acc.2.upgraded_validations_stores ∧
    (checklistStoreStep acc p).2.upgraded_docs_site_validations_stores =
      acc.2.upgraded_docs_site_validations_stores := by
  rcases p with ⟨m, s⟩
  unfold checklistStoreStep process_validations_store_for_checklist process_metrics_store_for_checklist
  cases s.ty <;> dsimp only
  all_goals repeat' split
  all_goals exact ⟨rfl, rfl, rfl⟩

theorem docsSiteStep_log_fields (acc : UpgradeChecklist × UpgradeLog)
    (m : String) (sb : StoreBackend) :
    (process_docs_site_for_checklist m sb acc).2.exceptions = acc.2.exceptions ∧
    (process_docs_site_for_checklist m sb acc).2.upgraded_validations_stores =
      acc.2.upgraded_validations_stores ∧
    (process_docs_site_for_checklist m sb acc).2.upgraded_docs_site_validations_stores =
      acc.2.upgraded_docs_site_validations_stores := by
  unfold process_docs_site_for_checklist
  split
  all_goals exact ⟨rfl, rfl, rfl⟩

theorem foldl_storeStep_log_fields :
    ∀ (todo : List (String × RegisteredStore)) (acc : UpgradeChecklist × UpgradeLog),
    (todo.foldl checklistStoreStep acc).2.exceptions = acc.2.exceptions ∧
    (todo.foldl checklistStoreStep acc).2.upgraded_validations_stores =
      acc.2.upgraded_validations_stores ∧
    (todo.foldl checklistStoreStep acc).2.upgraded_docs_site_validations_stores =
      acc.2.upgraded_docs_site_validations_stores
  | [], _ => ⟨rfl, rfl, rfl⟩
  | p :: rest, acc => by
    rw [List.foldl_cons]
    obtain ⟨h1, h2, h3⟩ := foldl_storeStep_log_fields rest (checklistStoreStep acc p)
    obtain ⟨g1, g2, g3⟩ := checklistStoreStep_log_fields acc p
    exact ⟨h1.trans g1, h2.trans g2, h3.trans g3⟩

theorem foldl_docsStep_log_fields :
    ∀ (sites : List (String × StoreBackend)) (acc : UpgradeChecklist × UpgradeLog),
    ((sites.foldl (fun acc entry => process_docs_site_for_checklist entry.1 entry.2 acc) acc).2.exceptions =
      acc.2.exceptions) ∧
    ((sites.foldl (fun acc entry => process_docs_site_for_checklist entry.1 entry.2 acc) acc).2.upgraded_validations_stores =
      acc.2.upgraded_validations_stores) ∧
    ((sites.foldl (fun acc entry => process_docs_site_for_checklist entry.1 entry.2 acc) acc).2.upgraded_docs_site_validations_stores =
      acc.2.upgraded_docs_site_validations_stores)
  | [], _ => ⟨rfl, rfl, rfl⟩
  | ⟨m, sb⟩ :: rest, acc => by
    rw [List.foldl_cons]
    obtain ⟨h1, h2, h3⟩ := foldl_docsStep_log_fields rest (process_docs_site_for_checklist m sb acc)
    obtain ⟨g1, g2, g3⟩ := docsSiteStep_log_fields acc m sb
    exact ⟨h1.trans g1, h2.trans g2, h3.trans g3⟩

/-- Checklist construction leaves the exceptions list and both outcome
maps empty. -/
theorem generate_log_fields (ctx : Ctx) :
    (generate_upgrade_checklist ctx).2.exceptions = [] ∧
    (generate_upgrade_checklist ctx).2.upgraded_validations_stores = [] ∧
    (generate_upgrade_checklist ctx).2.upgraded_docs_site_validations_stores = [] := by
  unfold generate_upgrade_checklist
  cases ctx.data_docs_sites with
  | none => exact foldl_storeStep_log_fields ctx.stores _
  | some sites =>
    dsimp only
    obtain ⟨h1, h2, h3⟩ := foldl_docsStep_log_fields sites
      (ctx.stores.foldl checklistStoreStep (⟨[], []⟩, emptyUpgradeLog))
    obtain ⟨g1, g2, g3⟩ := foldl_storeStep_log_fields ctx.stores (⟨[], []⟩, emptyUpgradeLog)
    exact ⟨h1.trans g1, h2.trans g2, h3.trans g3⟩

theorem mem_keys_dictSet {α : Type} (k : String) (v : α) :
    ∀ (l : List (String × α)) (m : String),
    m ∈ (dictSet k v l).map Prod.fst → m ∈ l.map Prod.fst ∨ m = k
  | [], m, h => by
    simp [dictSet] at h
    exact Or.inr h
  | (k', w) :: rest, m, h => by
    by_cases hk : k' = k
    · rw [show dictSet k v ((k', w) :: rest) = (k, v) :: rest from by simp [dictSet, hk]] at h
      rw [List.map_cons, List.mem_cons] at h
      rcases h with h | h
      · exact Or.inr h
      · exact Or.inl (by rw [List.map_cons, List.mem_cons]; exact Or.inr h)
    · rw [show dictSet k v ((k', w) :: rest) = (k', w) :: dictSet k v rest from by simp [dictSet, hk]] at h
      rw [List.map_cons, List.mem_cons] at h
      rcases h with h | h
      · exact Or.inl (by rw [List.map_cons, List.mem_cons]; exact Or.inl h)
      · rcases mem_keys_dictSet k v rest m h with h2 | h2
        · exact Or.inl (by rw [List.map_cons, List.mem_cons]; exact Or.inr h2)
        · exact Or.inr h2

theorem nodup_keys_dictSet {α : Type} (k : String) (v : α) :
    ∀ (l : List (String × α)), (l.map Prod.fst).Nodup → ((dictSet k v l).map Prod.fst).Nodup
  | [], _ => by simp [dictSet]
  | (k', w) :: rest, h => by
    rw [List.map_cons] at h
    have h' := List.nodup_cons.mp h
    by_cases hk : k' = k
    · rw [show dictSet k v ((k', w) :: rest) = (k, v) :: rest from by simp [dictSet, hk]]
      rw [List.map_cons, List.nodup_cons]
      exact ⟨by rw [← hk]; exact h'.1, h'.2⟩
    · rw [show dictSet k v ((k', w) :: rest) = (k', w) :: dictSet k v rest from by simp [dictSet, hk]]
      rw [List.map_cons, List.nodup_cons]
      refine ⟨?_, nodup_keys_dictSet k v rest h'.2⟩
      intro hc
      rcases mem_keys_dictSet k v rest k' hc with h2 | h2
      · exact h'.1 h2
      · exact hk h2

theorem checklistStoreStep_checklists (acc : UpgradeChecklist × UpgradeLog)
    (p : String × RegisteredStore) :
    (((checklistStoreStep acc p).1.validations_store_backends = acc.1.validations_store_backends) ∨
      (∃ sb, (checklistStoreStep acc p).1.validations_store_backends =
        dictSet p.1 sb acc.1.validations_store_backends)) ∧
    (checklistStoreStep acc p).1.docs_validations_store_backends =
      acc.1.docs_validations_store_backends := by
  rcases p with ⟨m, s⟩
  unfold checklistStoreStep process_validations_store_for_checklist process_metrics_store_for_checklist
  cases s.ty <;> dsimp only
  all_goals repeat' split
  all_goals first
    | exact ⟨Or.inl rfl, rfl⟩
    | exact ⟨Or.inr ⟨s.store_backend, rfl⟩, rfl⟩

theorem docsSiteStep_checklists (acc : UpgradeChecklist × UpgradeLog)
    (m : String) (sb : StoreBackend) :
    ((process_docs_site_for_checklist m sb acc).1.validations_store_backends =
      acc.1.validations_store_backends) ∧
    (((process_docs_site_for_checklist m sb acc).1.docs_validations_store_backends =
        acc.1.docs_validations_store_backends) ∨
      ((process_docs_site_for_checklist m sb acc).1.docs_validations_store_backends =
        dictSet m sb acc.1.docs_validations_store_backends)) := by
  unfold process_docs_site_for_checklist
  split
  · exact ⟨rfl, Or.inr rfl⟩
  · exact ⟨rfl, Or.inl rfl⟩

theorem foldl_storeStep_nodup :
    ∀ (todo : List (String × RegisteredStore)) (acc : UpgradeChecklist × UpgradeLog),
    (acc.1.validations_store_backends.map Prod.fst).Nodup →
    (acc.1.docs_validations_store_backends.map Prod.fst).Nodup →
    ((todo.foldl checklistStoreStep acc).1.validations_store_backends.map Prod.fst).Nodup ∧
    ((todo.foldl checklistStoreStep acc).1.docs_validations_store_backends.map Prod.fst).Nodup
  | [], _, h1, h2 => ⟨h1, h2⟩
  | p :: rest, acc, h1, h2 => by
    rw [List.foldl_cons]
    obtain ⟨hv, hd⟩ := checklistStoreStep_checklists acc p
    refine foldl_storeStep_nodup rest _ ?_ (by rw [hd]; exact h2)
    rcases hv with hv | ⟨sb, hv⟩
    · rw [hv]; exact h1
    · rw [hv]; exact nodup_keys_dictSet p.1 sb _ h1

theorem foldl_docsStep_nodup :
    ∀ (sites : List (String × StoreBackend)) (acc : UpgradeChecklist × UpgradeLog),
    (acc.1.validations_store_backends.map Prod.fst).Nodup →
    (acc.1.docs_validations_store_backends.map Prod.fst).Nodup →
    (((sites.foldl (fun acc entry => process_docs_site_for_checklist entry.1 entry.2 acc) acc).1.validations_store_backends.map Prod.fst).Nodup) ∧
    (((sites.foldl (fun acc entry => process_docs_site_for_checklist entry.1 entry.2 acc) acc).1.docs_validations_store_backends.map Prod.fst).Nodup)
  | [], _, h1, h2 => ⟨h1, h2⟩
  | ⟨m, sb⟩ :: rest, acc, h1, h2 => by
    rw [List.foldl_cons]
    obtain ⟨hv, hd⟩ := docsSiteStep_checklists acc m sb
    refine foldl_docsStep_nodup rest _ (by rw [hv]; exact h1) ?_
    rcases hd with hd | hd
    · rw [hd]; exact h2
    · rw [hd]; exact nodup_keys_dictSet m sb _ h2

/-- Both checklists carry pairwise-distinct names (they are Python
dicts). -/
theorem generate_nodup (ctx : Ctx) :
    ((generate_upgrade_checklist ctx).1.validations_store_backends.map Prod.fst).Nodup ∧
    ((generate_upgrade_checklist ctx).1.docs_validations_store_backends.map Prod.fst).Nodup := by
  unfold generate_upgrade_checklist
  cases ctx.data_docs_sites with
  | none => exact foldl_storeStep_nodup ctx.stores _ (by simp) (by simp)
  | some sites =>
    dsimp only
    obtain ⟨h1, h2⟩ := foldl_storeStep_nodup ctx.stores (⟨[], []⟩, emptyUpgradeLog) (by simp) (by simp)
    exact foldl_docsStep_nodup sites _ h1 h2

/-- The stores pass appends only store-discriminated exception entries. -/
theorem runStoresPass_exc_true (parse : String → ParseOutcome) :
    ∀ (todo : List (String × StoreBackend)) (st : HelperState),
    ∃ new, (runStoresPass parse todo st).st.log.exceptions = st.log.exceptions ++ new ∧
      ∀ e ∈ new, e.is_store = true
  | [], st => ⟨[], by simp [runStoresPass], by simp⟩
  | (n, be) :: rest, st => by
    unfold runStoresPass
    dsimp only
    have hse := upgrade_store_backend_stepEffect parse be (.store n) (initStoreOutcome n st)
    obtain ⟨n1, he1, hp1⟩ := hse.exc_extend
    have he1' : (upgrade_store_backend parse be (.store n) (initStoreOutcome n st)).st.log.exceptions =
        st.log.exceptions ++ n1 := he1
    cases herr : (upgrade_store_backend parse be (.store n) (initStoreOutcome n st)).err with
    | some e => exact ⟨n1, he1', fun e he => (hp1 e he).1⟩
    | none =>
      obtain ⟨n2, he2, hp2⟩ := runStoresPass_exc_true parse rest
        (upgrade_store_backend parse be (.store n) (initStoreOutcome n st)).st
      refine ⟨n1 ++ n2, ?_, ?_⟩
      · rw [he2, he1', List.append_assoc]
      · intro e he
        rcases List.mem_append.mp he with h | h
        · exact (hp1 e h).1
        · exact hp2 e h

/-- The stores pass maintains the flag–entry correspondence, given the
names still to process are fresh. -/
theorem runStoresPass_LogInv (parse : String → ParseOutcome) :
    ∀ (todo : List (String × StoreBackend)) (st : HelperState),
    LogInv st →
    (∀ p ∈ todo, dictGet p.1 st.log.upgraded_validations_stores = none ∧
      ¬ HasExcFor true p.1 st.log.exceptions) →
    (todo.map Prod.fst).Nodup →
    LogInv (runStoresPass parse todo st).st
  | [], _, hinv, _, _ => hinv
  | (n, be) :: rest, st, hinv, hfresh, hnd => by
    rw [List.map_cons] at hnd
    have hnd' := List.nodup_cons.mp hnd
    obtain ⟨hn_none, hn_noexc⟩ := hfresh (n, be) (List.mem_cons_self _ _)
    unfold runStoresPass
    dsimp only
    have hinv1 : LogInv (initStoreOutcome n st) := by
      constructor
      · intro p o hp
        by_cases hpn : p = n
        · subst hpn
          have h2 : dictGet p (dictSet p (⟨[], false⟩ : StoreOutcome)
              st.log.upgraded_validations_stores) = some o := hp
          rw [dictGet_dictSet_self] at h2
          obtain rfl : (⟨[], false⟩ : StoreOutcome) = o := Option.some_inj.mp h2
          constructor
          · intro hflag
            simp at hflag
          · intro h
            exact absurd h hn_noexc
        · have h2 : dictGet p (dictSet n (⟨[], false⟩ : StoreOutcome)
              st.log.upgraded_validations_stores) = some o := hp
          rw [dictGet_dictSet_ne n p _ (fun hh => hpn hh.symm)] at h2
          exact hinv.1 p o h2
      · exact hinv.2
    have hse := upgrade_store_backend_stepEffect parse be (.store n) (initStoreOutcome n st)
    have hinv2 := hse.inv hinv1
    cases herr : (upgrade_store_backend parse be (.store n) (initStoreOutcome n st)).err with
    | some e => exact hinv2
    | none =>
      refine runStoresPass_LogInv parse rest _ hinv2 ?_ hnd'.2
      intro p hp
      have hpn : p.1 ≠ n := by
        intro hc
        have hm := List.mem_map_of_mem Prod.fst hp
        rw [hc] at hm
        exact hnd'.1 hm
      obtain ⟨hp_none, hp_noexc⟩ := hfresh p (List.mem_cons_of_mem _ hp)
      constructor
      · have h1 := hse.val_keys p.1
        have h2 : dictGet p.1 (initStoreOutcome n st).log.upgraded_validations_stores =
            dictGet p.1 st.log.upgraded_validations_stores :=
          dictGet_dictSet_ne n p.1 _ (fun hh => hpn hh.symm) st.log.upgraded_validations_stores
        rw [h2, hp_none] at h1
        cases hv : dictGet p.1 (upgrade_store_backend parse be (.store n)
            (initStoreOutcome n st)).st.log.upgraded_validations_stores with
        | none => rfl
        | some v => rw [hv] at h1; simp at h1
      · intro hcontra
        obtain ⟨new, hexc_eq, hnames⟩ := hse.exc_extend
        obtain ⟨e, he, hb, hname⟩ := hcontra
        have hexc_eq' : (upgrade_store_backend parse be (.store n)
            (initStoreOutcome n st)).st.log.exceptions = st.log.exceptions ++ new := hexc_eq
        rw [hexc_eq'] at he
        rcases List.mem_append.mp he with h | h
        · exact hp_noexc ⟨e, h, hb, hname⟩
        · have hen : e.name = n := (hnames e h).2
          rw [hen] at hname
          exact hpn hname.symm

/-- The sites pass maintains the flag–entry correspondence, given the
site names still to process are fresh. -/
theorem runSitesPass_LogInv (parse : String → ParseOutcome) :
    ∀ (todo : List (String × StoreBackend)) (st : HelperState),
    LogInv st →
    (∀ p ∈ todo, dictGet p.1 st.log.upgraded_docs_site_validations_stores = none ∧
      ¬ HasExcFor false p.1 st.log.exceptions) →
    (todo.map Prod.fst).Nodup →
    LogInv (runSitesPass parse todo st).st
  | [], _, hinv, _, _ => hinv
  | (n, be) :: rest, st, hinv, hfresh, hnd => by
    rw [List.map_cons] at hnd
    have hnd' := List.nodup_cons.mp hnd
    obtain ⟨hn_none, hn_noexc⟩ := hfresh (n, be) (List.mem_cons_self _ _)
    unfold runSitesPass
    dsimp only
    have hinv1 : LogInv (initSiteOutcome n st) := by
      constructor
      · exact hinv.1
      · intro p o hp
        by_cases hpn : p = n
        · subst hpn
          have h2 : dictGet p (dictSet p (⟨[], false⟩ : StoreOutcome)
              st.log.upgraded_docs_site_validations_stores) = some o := hp
          rw [dictGet_dictSet_self] at h2
          obtain rfl : (⟨[], false⟩ : StoreOutcome) = o := Option.some_inj.mp h2
          constructor
          · intro hflag
            simp at hflag
          · intro h
            exact absurd h hn_noexc
        · have h2 : dictGet p (dictSet n (⟨[], false⟩ : StoreOutcome)
              st.log.upgraded_docs_site_validations_stores) = some o := hp
          rw [dictGet_dictSet_ne n p _ (fun hh => hpn hh.symm)] at h2
          exact hinv.2 p o h2
    have hse := upgrade_store_backend_stepEffect parse be (.site n) (initSiteOutcome n st)
    have hinv2 := hse.inv hinv1
    cases herr : (upgrade_store_backend parse be (.site n) (initSiteOutcome n st)).err with
    | some e => exact hinv2
    | none =>
      refine runSitesPass_LogInv parse rest _ hinv2 ?_ hnd'.2
      intro p hp
      have hpn : p.1 ≠ n := by
        intro hc
        have hm := List.mem_map_of_mem Prod.fst hp
        rw [hc] at hm
        exact hnd'.1 hm
      obtain ⟨hp_none, hp_noexc⟩ := hfresh p (List.mem_cons_of_mem _ hp)
      constructor
      · have h1 := hse.docs_keys p.1
        have h2 : dictGet p.1 (initSiteOutcome n st).log.upgraded_docs_site_validations_stores =
            dictGet p.1 st.log.upgraded_docs_site_validations_stores :=
          dictGet_dictSet_ne n p.1 _ (fun hh => hpn hh.symm) st.log.upgraded_docs_site_validations_stores
        rw [h2, hp_none] at h1
        cases hv : dictGet p.1 (upgrade_store_backend parse be (.site n)
            (initSiteOutcome n st)).st.log.upgraded_docs_site_validations_stores with
        | none => rfl
        | some v => rw [hv] at h1; simp at h1
      · intro hcontra
        obtain ⟨new, hexc_eq, hnames⟩ := hse.exc_extend
        obtain ⟨e, he, hb, hname⟩ := hcontra
        have hexc_eq' : (upgrade_store_backend parse be (.site n)
            (initSiteOutcome n st)).st.log.exceptions = st.log.exceptions ++ new := hexc_eq
        rw [hexc_eq'] at he
        rcases List.mem_append.mp he with h | h
        · exact hp_noexc ⟨e, h, hb, hname⟩
        · have hen : e.name = n := (hnames e h).2
          rw [hen] at hname
          exact hpn hname.symm

/-- The whole session maintains the flag–entry correspondence. -/
theorem upgradeProjectFull_LogInv (ctx : Ctx) : LogInv (upgradeProjectFull ctx).1 := by
  obtain ⟨hexc0, hval0, hdocs0⟩ := generate_log_fields ctx
  obtain ⟨hvnd, hdnd⟩ := generate_nodup ctx
  unfold upgradeProjectFull
  dsimp only
  have hinv0 : LogInv (⟨(generate_upgrade_checklist ctx).2, []⟩ : HelperState) := by
    constructor
    · intro p o hp
      have hp' : dictGet p (generate_upgrade_checklist ctx).2.upgraded_validations_stores = some o := hp
      rw [hval0] at hp'
      simp [dictGet] at hp'
    · intro p o hp
      have hp' : dictGet p (generate_upgrade_checklist ctx).2.upgraded_docs_site_validations_stores = some o := hp
      rw [hdocs0] at hp'
      simp [dictGet] at hp'
  have hfresh0 : ∀ p ∈ (generate_upgrade_checklist ctx).1.validations_store_backends,
      dictGet p.1 (⟨(generate_upgrade_checklist ctx).2, []⟩ : HelperState).log.upgraded_validations_stores = none ∧
      ¬ HasExcFor true p.1 (⟨(generate_upgrade_checklist ctx).2, []⟩ : HelperState).log.exceptions := by
    intro p hp
    constructor
    · show dictGet p.1 (generate_upgrade_checklist ctx).2.upgraded_validations_stores = none
      rw [hval0]
      rfl
    · rintro ⟨e, he, -, -⟩
      have he' : e ∈ (generate_upgrade_checklist ctx).2.exceptions := he
      rw [hexc0] at he'
      exact absurd he' (List.not_mem_nil e)
  have h1 := runStoresPass_LogInv ctx.parse
    (generate_upgrade_checklist ctx).1.validations_store_backends
    ⟨(generate_upgrade_checklist ctx).2, []⟩ hinv0 hfresh0 hvnd
  refine runSitesPass_LogInv ctx.parse _ _ h1 ?_ hdnd
  intro p hp
  constructor
  · have hk := runStoresPass_docs_keys ctx.parse
      (generate_upgrade_checklist ctx).1.validations_store_backends
      ⟨(generate_upgrade_checklist ctx).2, []⟩ p.1
    have h0 : dictGet p.1 (⟨(generate_upgrade_checklist ctx).2, []⟩ : HelperState).log.upgraded_docs_site_validations_stores = none := by
      show dictGet p.1 (generate_upgrade_checklist ctx).2.upgraded_docs_site_validations_stores = none
      rw [hdocs0]
      rfl
    rw [h0] at hk
    cases hv : dictGet p.1 (runStoresPass ctx.parse
        (generate_upgrade_checklist ctx).1.validations_store_backends
        ⟨(generate_upgrade_checklist ctx).2, []⟩).st.log.upgraded_docs_site_validations_stores with
    | none => rfl
    | some v => rw [hv] at hk; simp at hk
  · rintro ⟨e, he, hb, -⟩
    obtain ⟨new, hne, hnames⟩ := runStoresPass_exc_true ctx.parse
      (generate_upgrade_checklist ctx).1.validations_store_backends
      ⟨(generate_upgrade_checklist ctx).2, []⟩
    rw [hne] at he
    rcases List.mem_append.mp he with h | h
    · have h' : e ∈ (generate_upgrade_checklist ctx).2.exceptions := h
      rw [hexc0] at h'
      exact absurd h' (List.not_mem_nil e)
    · have ht := hnames e h
      rw [ht] at hb
      cases hb

/-- Claim C10: every store or site processed by `upgrade_project` has its
outcome record initialized to `{"validations_updated": [], "exceptions":
False}` (resp. the pages variant) immediately before its keys are
processed — `initStoreOutcome` / `initSiteOutcome` are exactly the
initialization steps `upgrade_project` performs — and, in the returned
log, an outcome record's `"exceptions"` flag is `True` iff the flat
exceptions list holds at least one entry naming that store (resp. site)
with the matching discriminator key. -/
theorem c10_outcome_init_and_flag_iff (ctx : Ctx) :
    (∀ (st : HelperState) (n : String),
      dictGet n (initStoreOutcome n st).log.upgraded_validations_stores = some ⟨[], false⟩ ∧
      dictGet n (initSiteOutcome n st).log.upgraded_docs_site_validations_stores = some ⟨[], false⟩) ∧
    (∀ n o, dictGet n (upgrade_project ctx).upgraded_validations_stores = some o →
      (o.exceptions = true ↔ HasExcFor true n (upgrade_project ctx).exceptions)) ∧
    (∀ n o, dictGet n (upgrade_project ctx).upgraded_docs_site_validations_stores = some o →
      (o.exceptions = true ↔ HasExcFor false n (upgrade_project ctx).exceptions)) := by
  have hL := upgradeProjectFull_LogInv ctx
  exact ⟨fun st n => ⟨dictGet_dictSet_self .., dictGet_dictSet_self ..⟩,
    fun n o hp => hL.1 n o hp, fun n o hp => hL.2 n o hp⟩

/-- One store whose listing fails: its outcome record ends with
`exceptions = True` and exactly one entry names it. -/
def ctxC10 : Ctx := ⟨[("store_a", ⟨.validations, beListErr⟩)], none, parseAllOk⟩

theorem c10_witness :
    ((⟨[], true⟩ : StoreOutcome).exceptions = true ↔
      HasExcFor true "store_a" (upgrade_project ctxC10).exceptions) :=
  (c10_outcome_init_and_flag_iff ctxC10).2.1 "store_a" ⟨[], true⟩ (by decide)
